import Mathlib

/-!
# BCNP protocol core: a shallow embedding with correctness proofs

This development embeds the BCNP (Binary Control Network Protocol) v3 core in
Lean 4 and proves properties of its wire codec (`packet.h` / `packet.cpp`),
its stream parser (`stream_parser.cpp`) and its timed message queue
(`message_queue.h`).

Bytes are modelled as natural numbers (values `< 256` wherever the source
holds a `uint8_t`), machine integers as `Nat`/`Int` with explicit `% 2^w`
truncation where the source performs a narrowing cast, buffers as `List Nat`,
and time points (`std::chrono::steady_clock::time_point`, millisecond
resolution in every use site of the source) as `Int`.  The
`time_point::min()` sentinel of the queue is modelled by `Option`.

The generated header `message_types.h` (protocol constants, the `DriveCmd`
message struct with its `Encode`/`Decode`, the global message registry and
`detail::StoreU16/LoadU16/StoreU32/LoadU32`) is not part of the sources;
those definitions are modelled from the specification and are marked
`Modelled from the spec:` in their doc comments.
-/

set_option autoImplicit false

namespace BCNP

/-! ## Big-endian byte helpers (`detail::StoreU16` etc.)

Modelled from the spec: `message_types.h` (which provides
`detail::StoreU16`, `detail::LoadU16`, `detail::StoreU32`,
`detail::LoadU32`) is generated and absent from the sources; the spec fixes
the format: "All integer fields are big-endian". -/

/-- Modelled from the spec: store a 16-bit value as two big-endian bytes
(`detail::StoreU16`); a wider `Nat` is truncated exactly as the C++
`uint16_t` argument cast would. -/
def storeU16 (v : Nat) : List Nat := [v / 256 % 256, v % 256]

/-- Modelled from the spec: read two big-endian bytes as a 16-bit value
(`detail::LoadU16`). -/
def loadU16 (b0 b1 : Nat) : Nat := b0 * 256 + b1

/-- Modelled from the spec: store a 32-bit value as four big-endian bytes
(`detail::StoreU32`). -/
def storeU32 (v : Nat) : List Nat :=
  [v / 16777216 % 256, v / 65536 % 256, v / 256 % 256, v % 256]

/-- Modelled from the spec: read four big-endian bytes as a 32-bit value
(`detail::LoadU32`). -/
def loadU32 (b0 b1 b2 b3 : Nat) : Nat := ((b0 * 256 + b1) * 256 + b2) * 256 + b3

theorem loadU16_storeU16 (v : Nat) (h : v < 65536) :
    loadU16 (v / 256 % 256) (v % 256) = v := by
  unfold loadU16; omega

theorem storeU16_length (v : Nat) : (storeU16 v).length = 2 := rfl

theorem loadU32_storeU32 (v : Nat) (h : v < 4294967296) :
    loadU32 (v / 16777216 % 256) (v / 65536 % 256) (v / 256 % 256) (v % 256) = v := by
  unfold loadU32; omega

theorem storeU32_length (v : Nat) : (storeU32 v).length = 4 := rfl

/-! ## CRC32 (`packet.cpp`: `MakeCrcTable`, `ComputeCrc32`) -/

/-- One bit step of the table generator of `MakeCrcTable` (`packet.cpp`):
shift right and conditionally xor the reflected polynomial `0xEDB88320`. -/
def crcBitStep (crc : Nat) : Nat :=
  if crc % 2 = 1 then (crc / 2) ^^^ 0xEDB88320 else crc / 2

/-- `kCrc32Table[i]` of `packet.cpp`: eight bit steps applied to the index. -/
def crcTable (i : Nat) : Nat := crcBitStep^[8] i

/-- One byte step of `ComputeCrc32` (`packet.cpp`). -/
def crc32Update (crc b : Nat) : Nat :=
  (crc / 256) ^^^ crcTable ((crc ^^^ b) % 256)

/-- `ComputeCrc32` of `packet.cpp`: initial value `0xFFFFFFFF`, table-driven
update per byte, final xor with `0xFFFFFFFF`. -/
def ComputeCrc32 (data : List Nat) : Nat :=
  (data.foldl crc32Update 0xFFFFFFFF) ^^^ 0xFFFFFFFF

theorem crcBitStep_lt (crc : Nat) (h : crc < 4294967296) :
    crcBitStep crc < 4294967296 := by
  have h2 : crc / 2 < 2 ^ 32 := by omega
  have hp : (0xEDB88320 : Nat) < 2 ^ 32 := by norm_num
  unfold crcBitStep
  split
  · exact Nat.xor_lt_two_pow h2 hp
  · omega

theorem crcTable_lt (i : Nat) (h : i < 4294967296) : crcTable i < 4294967296 := by
  unfold crcTable
  have : ∀ n c, c < 4294967296 → crcBitStep^[n] c < 4294967296 := by
    intro n
    induction n with
    | zero => intro c hc; simpa using hc
    | succ k ih =>
        intro c hc
        rw [Function.iterate_succ_apply]
        exact ih _ (crcBitStep_lt c hc)
  exact this 8 i h

theorem crc32Update_lt (crc b : Nat) (h : crc < 4294967296) :
    crc32Update crc b < 4294967296 := by
  have h1 : crc / 256 < 2 ^ 32 := by omega
  have h2 : crcTable ((crc ^^^ b) % 256) < 2 ^ 32 := by
    have : (crc ^^^ b) % 256 < 4294967296 := by omega
    simpa using crcTable_lt _ this
  exact Nat.xor_lt_two_pow h1 h2

theorem computeCrc32_lt (data : List Nat) : ComputeCrc32 data < 4294967296 := by
  unfold ComputeCrc32
  have hfold : ∀ (l : List Nat) (a : Nat), a < 4294967296 →
      l.foldl crc32Update a < 4294967296 := by
    intro l
    induction l with
    | nil => intro a ha; simpa using ha
    | cons x xs ih => intro a ha; exact ih _ (crc32Update_lt a x ha)
  have h1 : data.foldl crc32Update 0xFFFFFFFF < 2 ^ 32 := by
    simpa using hfold data 0xFFFFFFFF (by norm_num)
  have h2 : (0xFFFFFFFF : Nat) < 2 ^ 32 := by norm_num
  exact Nat.xor_lt_two_pow h1 h2

/-! ## Protocol constants (`packet.h`, generated `message_types.h`)

`kProtocolMajorV3 = 3`, `kProtocolMinorV3 = 0` and `kHeaderSizeV3 = 7` live
in the generated header; the spec fixes them ("Protocol version 3.x", the
7-byte header layout table, scenario A `{maj=3,min=0,...}`). -/

/-- Modelled from the spec: local protocol major version (missing
`message_types.h`). -/
def kProtocolMajorV3 : Nat := 3

/-- Modelled from the spec: local protocol minor version (missing
`message_types.h`). -/
def kProtocolMinorV3 : Nat := 0

/-- Modelled from the spec: packet header size in bytes (missing
`message_types.h`). -/
def kHeaderSizeV3 : Nat := 7

/-- `kChecksumSize` of `packet.h`. -/
def kChecksumSize : Nat := 4

/-- `kMaxMessagesPerPacket` of `packet.h`. -/
def kMaxMessagesPerPacket : Nat := 65535

/-! ## The `DriveCmd` message type

Modelled from the spec: the message structs live in the generated
`message_types.h`.  The spec describes the drive command as messages
`(vx, ω, duration_ms)` of wire size 10 with `type = 1` (scenario A):
two IEEE-754 32-bit floats and a `uint16` duration, big-endian, where
floats must be finite ("NaN/Inf treated as invalid on decode", encode
"fails ... e.g. non-finite float").  Floats are carried as their raw
32-bit patterns; only finiteness (exponent field ≠ 0xFF) matters to the
protocol logic. -/

/-- An IEEE-754 single is finite (neither NaN nor ±Inf) iff its exponent
bits 23..30 are not all ones. -/
def floatFinite (bits : Nat) : Bool := bits / 8388608 % 256 ≠ 255

/-- Modelled from the spec: the `DriveCmd` message struct of the generated
`message_types.h` — two 32-bit float fields (raw bit patterns) and a 16-bit
duration. -/
structure DriveCmd where
  vxBits : Nat
  omegaBits : Nat
  durationMs : Nat
deriving DecidableEq, Inhabited

namespace DriveCmd

/-- Modelled from the spec: `DriveCmd::kTypeId` (scenario A uses `type=1`). -/
def kTypeId : Nat := 1

/-- Modelled from the spec: `DriveCmd::kWireSize` (4 + 4 + 2 bytes). -/
def kWireSize : Nat := 10

/-- Field ranges enforced by the C++ member types (`float` bit patterns fit
32 bits, `durationMs` is `uint16_t`). -/
def WF (c : DriveCmd) : Prop :=
  c.vxBits < 4294967296 ∧ c.omegaBits < 4294967296 ∧ c.durationMs < 65536

instance (c : DriveCmd) : Decidable c.WF := by unfold WF; infer_instance

/-- Both float fields finite: the condition under which the generated
encoder and decoder succeed. -/
def Finite (c : DriveCmd) : Bool := floatFinite c.vxBits && floatFinite c.omegaBits

/-- Modelled from the spec: `DriveCmd::Encode` — big-endian fixed layout,
fails on a non-finite float. -/
def Encode (c : DriveCmd) : Option (List Nat) :=
  if c.Finite then
    some (storeU32 c.vxBits ++ storeU32 c.omegaBits ++ storeU16 c.durationMs)
  else none

/-- Modelled from the spec: `DriveCmd::Decode` — reads the fixed big-endian
layout, `none` when fewer than `kWireSize` bytes are given or a float field
is NaN/Inf. -/
def Decode (bytes : List Nat) : Option DriveCmd :=
  if bytes.length < kWireSize then none
  else
    let vx := loadU32 (bytes.getD 0 0) (bytes.getD 1 0) (bytes.getD 2 0) (bytes.getD 3 0)
    let om := loadU32 (bytes.getD 4 0) (bytes.getD 5 0) (bytes.getD 6 0) (bytes.getD 7 0)
    let dur := loadU16 (bytes.getD 8 0) (bytes.getD 9 0)
    if floatFinite vx && floatFinite om then some ⟨vx, om, dur⟩ else none

theorem encode_length (c : DriveCmd) (bs : List Nat) (h : c.Encode = some bs) :
    bs.length = kWireSize := by
  unfold Encode at h
  split at h
  · cases h; rfl
  · cases h

theorem decode_encode (c : DriveCmd) (bs : List Nat) (hwf : c.WF)
    (h : c.Encode = some bs) : Decode bs = some c := by
  obtain ⟨h1, h2, h3⟩ := hwf
  unfold Encode at h
  split at h
  case isTrue hfin =>
    cases h
    unfold Decode
    have hvx : loadU32 (c.vxBits / 16777216 % 256) (c.vxBits / 65536 % 256)
        (c.vxBits / 256 % 256) (c.vxBits % 256) = c.vxBits := by
      unfold loadU32; omega
    have hom : loadU32 (c.omegaBits / 16777216 % 256) (c.omegaBits / 65536 % 256)
        (c.omegaBits / 256 % 256) (c.omegaBits % 256) = c.omegaBits := by
      unfold loadU32; omega
    have hdur : loadU16 (c.durationMs / 256 % 256) (c.durationMs % 256) = c.durationMs := by
      unfold loadU16; omega
    simp only [storeU32, storeU16, List.append_assoc, List.cons_append, List.nil_append,
      List.length_cons, List.length_nil, List.getD, List.get?, kWireSize]
    norm_num
    rw [hvx, hom, hdur]
    simp [DriveCmd.Finite] at hfin
    simp [hfin.1, hfin.2]
  case isFalse => cases h

end DriveCmd

/-! ## Packet structures (`packet.h`) -/

/-- `PacketHeader` of `packet.h`. -/
structure PacketHeader where
  major : Nat
  minor : Nat
  flags : Nat
  messageType : Nat
  messageCount : Nat
deriving DecidableEq, Inhabited

/-- `PacketError` of `packet.h` (`TooManyCommands` is a legacy alias of
`TooManyMessages` in the source, so it is a single constructor here). -/
inductive PacketError where
  | None
  | TooSmall
  | UnsupportedVersion
  | TooManyMessages
  | Truncated
  | InvalidFloat
  | ChecksumMismatch
  | UnknownMessageType
  | HandshakeRequired
  | SchemaMismatch
deriving DecidableEq, Inhabited

/-- `PacketView` of `packet.h`: the parsed header plus the buffer contents
from `payloadStart` on (the byte list from offset `kHeaderSizeV3` of the
backing buffer, which the view borrows). -/
structure PacketView where
  header : PacketHeader
  payload : List Nat
deriving DecidableEq, Inhabited

/-- `DecodeViewResult` of `packet.h`. -/
structure DecodeViewResult where
  view : Option PacketView
  error : PacketError
  bytesConsumed : Nat
deriving DecidableEq, Inhabited

/-! ## Encoding (`EncodeTypedPacket`, `packet.h` lines 321-357) -/

/-- The message-encoding loop of `EncodeTypedPacket`: the concatenated
bytes of each message's `Encode`, or `none` as soon as one fails. -/
def encodeMessages : List DriveCmd → Option (List Nat)
  | [] => some []
  | m :: ms =>
    match m.Encode, encodeMessages ms with
    | some bs, some rest => some (bs ++ rest)
    | _, _ => none

/-- `EncodeTypedPacket` of `packet.h` (specialised to `DriveCmd`, the one
message type instantiated in `packet.cpp`): `some bytes` models a `true`
return with `bytesWritten = bytes.length` and those bytes in `output`;
`none` models a `false` return.  The header is written big-endian with the
static `kTypeId` and the message count, then the messages, then the CRC32
of header+payload. -/
def EncodeTypedPacket (header : PacketHeader) (messages : List DriveCmd)
    (capacity : Nat) : Option (List Nat) :=
  if messages.length > kMaxMessagesPerPacket then none
  else
    let payloadSize := kHeaderSizeV3 + messages.length * DriveCmd.kWireSize
    let required := payloadSize + kChecksumSize
    if capacity < required then none
    else
      match encodeMessages messages with
      | none => none
      | some body =>
        let pre := [header.major, header.minor, header.flags] ++
          storeU16 DriveCmd.kTypeId ++ storeU16 messages.length ++ body
        some (pre ++ storeU32 (ComputeCrc32 pre))

/-! ## Decoding (`DecodePacketView`, `packet.cpp` lines 103-180) -/

/-- The header parse of `DecodePacketView` (`packet.cpp`): the first seven
bytes, integer fields big-endian. -/
def parseHeader (data : List Nat) : PacketHeader :=
  { major := data.getD 0 0
    minor := data.getD 1 0
    flags := data.getD 2 0
    messageType := loadU16 (data.getD 3 0) (data.getD 4 0)
    messageCount := loadU16 (data.getD 5 0) (data.getD 6 0) }

/-- The type-specific validation loop of `DecodePacketView` (`packet.cpp`):
every `DriveCmd` of the payload must decode (finite floats), stepping
`kWireSize` bytes per message. -/
def validateDriveCmds : List Nat → Nat → Bool
  | _, 0 => true
  | p, n + 1 =>
    (DriveCmd.Decode (p.take DriveCmd.kWireSize)).isSome &&
      validateDriveCmds (p.drop DriveCmd.kWireSize) n

/-- `DecodePacketView` of `packet.cpp`.  The global registry lookup
`GetMessageInfo` (generated `message_types.h`) is passed as the function
`reg` from a type id to its wire size, `none` for an unregistered id. -/
def DecodePacketView (reg : Nat → Option Nat) (data : List Nat) : DecodeViewResult :=
  if data.length < kHeaderSizeV3 then ⟨none, .TooSmall, 0⟩
  else
    let header := parseHeader data
    if header.major ≠ kProtocolMajorV3 ∨ header.minor ≠ kProtocolMinorV3 then
      ⟨none, .UnsupportedVersion, 1⟩
    else
      match reg header.messageType with
      | none => ⟨none, .UnknownMessageType, 1⟩
      | some wireSize =>
        if header.messageCount > kMaxMessagesPerPacket then
          ⟨none, .TooManyMessages, 1⟩
        else
          let payloadSize := kHeaderSizeV3 + header.messageCount * wireSize
          let expectedSize := payloadSize + kChecksumSize
          if data.length < expectedSize then ⟨none, .Truncated, 0⟩
          else
            let transmittedCrc := loadU32 (data.getD payloadSize 0)
              (data.getD (payloadSize + 1) 0) (data.getD (payloadSize + 2) 0)
              (data.getD (payloadSize + 3) 0)
            let computedCrc := ComputeCrc32 (data.take payloadSize)
            if transmittedCrc ≠ computedCrc then
              ⟨none, .ChecksumMismatch, expectedSize⟩
            else if header.messageType = DriveCmd.kTypeId ∧
                validateDriveCmds (data.drop kHeaderSizeV3) header.messageCount = false then
              ⟨none, .InvalidFloat, expectedSize⟩
            else
              ⟨some ⟨header, data.drop kHeaderSizeV3⟩, .None, expectedSize⟩

/-- Modelled from the spec: `DecodePacketViewWithSize` is declared in
`packet.h` but its definition is not among the sources.  The spec's
`decode_view(bytes, wire_size)` performs, in order, the size, version,
count, truncation and CRC checks with the given wire size, and float
fields must be finite or the packet fails with `InvalidFloat` — the same
sequence as the in-source sibling `DecodePacketView` minus the registry
lookup. -/
def DecodePacketViewWithSize (data : List Nat) (wireSize : Nat) : DecodeViewResult :=
  if data.length < kHeaderSizeV3 then ⟨none, .TooSmall, 0⟩
  else
    let header := parseHeader data
    if header.major ≠ kProtocolMajorV3 ∨ header.minor ≠ kProtocolMinorV3 then
      ⟨none, .UnsupportedVersion, 1⟩
    else if header.messageCount > kMaxMessagesPerPacket then
      ⟨none, .TooManyMessages, 1⟩
    else
      let payloadSize := kHeaderSizeV3 + header.messageCount * wireSize
      let expectedSize := payloadSize + kChecksumSize
      if data.length < expectedSize then ⟨none, .Truncated, 0⟩
      else
        let transmittedCrc := loadU32 (data.getD payloadSize 0)
          (data.getD (payloadSize + 1) 0) (data.getD (payloadSize + 2) 0)
          (data.getD (payloadSize + 3) 0)
        let computedCrc := ComputeCrc32 (data.take payloadSize)
        if transmittedCrc ≠ computedCrc then
          ⟨none, .ChecksumMismatch, expectedSize⟩
        else if header.messageType = DriveCmd.kTypeId ∧
            validateDriveCmds (data.drop kHeaderSizeV3) header.messageCount = false then
          ⟨none, .InvalidFloat, expectedSize⟩
        else
          ⟨some ⟨header, data.drop kHeaderSizeV3⟩, .None, expectedSize⟩

/-- The message-decoding loop of `DecodeTypedPacket` (`packet.h`): decode
`n` messages stepping `kWireSize` bytes, `none` as soon as one fails. -/
def decodeMessages : List Nat → Nat → Option (List DriveCmd)
  | _, 0 => some []
  | p, n + 1 =>
    match DriveCmd.Decode (p.take DriveCmd.kWireSize),
        decodeMessages (p.drop DriveCmd.kWireSize) n with
    | some m, some rest => some (m :: rest)
    | _, _ => none

/-- `DecodeTypedPacket` of `packet.h` (specialised to `DriveCmd`): `none`
on a type mismatch or when any message fails to decode. -/
def DecodeTypedPacket (view : PacketView) : Option (PacketHeader × List DriveCmd) :=
  if view.header.messageType ≠ DriveCmd.kTypeId then none
  else (decodeMessages view.payload view.header.messageCount).map
    (fun ms => (view.header, ms))

/-! ## The message iterator (`MessageIterator<DriveCmd>`, `packet.h`) -/

/-- `MessageIterator<DriveCmd>` of `packet.h`: the bytes from the current
payload position on, plus the count of messages remaining.  The C++ null
pointer of an end iterator is modelled by the empty byte list. -/
structure MessageIterator where
  ptr : List Nat
  count : Nat
deriving DecidableEq, Inhabited

namespace MessageIterator

/-- `MessageIterator::operator*` of `packet.h` (lines 120-123): decode the
current `kWireSize` bytes, or yield a default-constructed `DriveCmd` when
the decode fails (`value_or(MsgType{})`). -/
def deref (it : MessageIterator) : DriveCmd :=
  (DriveCmd.Decode (it.ptr.take DriveCmd.kWireSize)).getD default

/-- `MessageIterator::operator++` of `packet.h`: step one message forward,
dropping to the null (empty) pointer when no message remains. -/
def inc (it : MessageIterator) : MessageIterator :=
  let it' : MessageIterator :=
    if 0 < it.count then ⟨it.ptr.drop DriveCmd.kWireSize, it.count - 1⟩ else it
  if it'.count = 0 then ⟨[], 0⟩ else it'

/-- `MessageIterator::operator==` of `packet.h`: end iterators (count 0)
compare equal regardless of position. -/
def iterEq (a b : MessageIterator) : Bool :=
  (a.count = 0 && b.count = 0) || (a.ptr = b.ptr && a.count = b.count)

end MessageIterator

/-- `PacketView::begin_as<DriveCmd>` of `packet.h`: the empty iterator on a
type mismatch, otherwise the payload start with `messageCount` remaining. -/
def PacketView.beginAs (v : PacketView) : MessageIterator :=
  if DriveCmd.kTypeId ≠ v.header.messageType then ⟨[], 0⟩
  else ⟨v.payload, v.header.messageCount⟩

/-- `PacketView::end_as<DriveCmd>` of `packet.h`. -/
def PacketView.endAs : MessageIterator := ⟨[], 0⟩

/-- The de-sugared `for (it = begin; it != end; ++it) out.push_back(*it)`
loop over a `MessageIterator`, with fuel (first argument) bounding the
iteration count. -/
def readMessagesGo : Nat → MessageIterator → List DriveCmd
  | 0, _ => []
  | fuel + 1, it =>
    if MessageIterator.iterEq it PacketView.endAs then []
    else it.deref :: readMessagesGo fuel it.inc

/-- Values yielded by iterating from `it` to the end iterator; `it.count`
fuel suffices because `inc` decreases the count. -/
def readMessages (it : MessageIterator) : List DriveCmd :=
  readMessagesGo it.count it

/-! ## List helpers -/

theorem take_append_length (l₁ l₂ : List Nat) : (l₁ ++ l₂).take l₁.length = l₁ := by
  induction l₁ with
  | nil => simp
  | cons a l ih => simpa using ih l₂

theorem drop_append_length (l₁ l₂ : List Nat) : (l₁ ++ l₂).drop l₁.length = l₂ := by
  induction l₁ with
  | nil => simp
  | cons a l ih => simpa using ih l₂

theorem getD_append_add (l₁ l₂ : List Nat) (i : Nat) :
    (l₁ ++ l₂).getD (l₁.length + i) 0 = l₂.getD i 0 := by
  induction l₁ with
  | nil => simp
  | cons a l ih => simpa [Nat.succ_add] using ih

/-! ## Round-trip of the wire codec (C1) -/

/-- The bytes `DriveCmd::Encode` produces when it succeeds. -/
def DriveCmd.encBytes (c : DriveCmd) : List Nat :=
  storeU32 c.vxBits ++ storeU32 c.omegaBits ++ storeU16 c.durationMs

theorem DriveCmd.encode_of_finite (c : DriveCmd) (h : c.Finite = true) :
    c.Encode = some c.encBytes := by
  unfold Encode encBytes
  simp [h]

theorem DriveCmd.encBytes_length (c : DriveCmd) : c.encBytes.length = kWireSize := rfl

/-- The payload bytes the encoding loop writes for a message list. -/
def encodedPayload : List DriveCmd → List Nat
  | [] => []
  | m :: ms => m.encBytes ++ encodedPayload ms

theorem encodeMessages_eq_some (msgs : List DriveCmd)
    (h : ∀ m ∈ msgs, m.Finite = true) :
    encodeMessages msgs = some (encodedPayload msgs) := by
  induction msgs with
  | nil => rfl
  | cons m ms ih =>
      have hm := DriveCmd.encode_of_finite m (h m (by simp))
      have hms := ih (fun x hx => h x (by simp [hx]))
      simp [encodeMessages, encodedPayload, hm, hms]

theorem encodedPayload_length (msgs : List DriveCmd) :
    (encodedPayload msgs).length = msgs.length * DriveCmd.kWireSize := by
  induction msgs with
  | nil => rfl
  | cons m ms ih =>
      simp only [encodedPayload, List.length_append, List.length_cons, ih,
        m.encBytes_length]
      ring

theorem decodeMessages_encodedPayload (msgs : List DriveCmd) (rest : List Nat)
    (h : ∀ m ∈ msgs, m.WF ∧ m.Finite = true) :
    decodeMessages (encodedPayload msgs ++ rest) msgs.length = some msgs := by
  induction msgs generalizing rest with
  | nil => rfl
  | cons m ms ih =>
      obtain ⟨hwf, hfin⟩ := h m (by simp)
      have htake : ((m.encBytes ++ encodedPayload ms ++ rest).take DriveCmd.kWireSize)
          = m.encBytes := by
        rw [← m.encBytes_length, List.append_assoc]
        exact take_append_length _ _
      have hdrop : ((m.encBytes ++ encodedPayload ms ++ rest).drop DriveCmd.kWireSize)
          = encodedPayload ms ++ rest := by
        rw [← m.encBytes_length, List.append_assoc]
        exact drop_append_length _ _
      have hdec : DriveCmd.Decode m.encBytes = some m :=
        m.decode_encode _ hwf (m.encode_of_finite hfin)
      simp only [encodedPayload, List.length_cons, decodeMessages, List.append_assoc]
      rw [← List.append_assoc, htake, hdrop, hdec,
        ih rest (fun x hx => h x (by simp [hx]))]

theorem validateDriveCmds_encodedPayload (msgs : List DriveCmd) (rest : List Nat)
    (h : ∀ m ∈ msgs, m.WF ∧ m.Finite = true) :
    validateDriveCmds (encodedPayload msgs ++ rest) msgs.length = true := by
  induction msgs generalizing rest with
  | nil => rfl
  | cons m ms ih =>
      obtain ⟨hwf, hfin⟩ := h m (by simp)
      have htake : ((m.encBytes ++ encodedPayload ms ++ rest).take DriveCmd.kWireSize)
          = m.encBytes := by
        rw [← m.encBytes_length, List.append_assoc]
        exact take_append_length _ _
      have hdrop : ((m.encBytes ++ encodedPayload ms ++ rest).drop DriveCmd.kWireSize)
          = encodedPayload ms ++ rest := by
        rw [← m.encBytes_length, List.append_assoc]
        exact drop_append_length _ _
      have hdec : DriveCmd.Decode m.encBytes = some m :=
        m.decode_encode _ hwf (m.encode_of_finite hfin)
      simp only [encodedPayload, List.length_cons, validateDriveCmds, List.append_assoc]
      rw [← List.append_assoc, htake, hdrop, hdec,
        ih rest (fun x hx => h x (by simp [hx]))]
      rfl

/-- C1: for every typed `DriveCmd` packet with valid fields, at most 65535
messages, all of them encodable, and a buffer of sufficient capacity,
`EncodeTypedPacket` succeeds and writes exactly
`7 + count·wireSize + 4` bytes whose trailing four bytes are the big-endian
CRC32 of the preceding header+payload bytes, and `DecodePacketView` on
exactly those bytes returns no error, consumes the whole frame, and yields
a view whose header and decoded messages equal the original packet. -/
theorem encode_decode_roundtrip (reg : Nat → Option Nat) (header : PacketHeader)
    (msgs : List DriveCmd) (capacity : Nat)
    (hreg : reg DriveCmd.kTypeId = some DriveCmd.kWireSize)
    (hmaj : header.major = kProtocolMajorV3)
    (hmin : header.minor = kProtocolMinorV3)
    (htype : header.messageType = DriveCmd.kTypeId)
    (hcnt : header.messageCount = msgs.length)
    (hn : msgs.length ≤ kMaxMessagesPerPacket)
    (hmsg : ∀ m ∈ msgs, m.WF ∧ m.Finite = true)
    (hcap : kHeaderSizeV3 + msgs.length * DriveCmd.kWireSize + kChecksumSize ≤ capacity) :
    ∃ bytes, EncodeTypedPacket header msgs capacity = some bytes ∧
      bytes.length = kHeaderSizeV3 + msgs.length * DriveCmd.kWireSize + kChecksumSize ∧
      bytes.drop (kHeaderSizeV3 + msgs.length * DriveCmd.kWireSize) =
        storeU32 (ComputeCrc32 (bytes.take (kHeaderSizeV3 + msgs.length * DriveCmd.kWireSize))) ∧
      ∃ v, DecodePacketView reg bytes = ⟨some v, .None, bytes.length⟩ ∧
        v.header = header ∧ DecodeTypedPacket v = some (header, msgs) := by
  have hfin : ∀ m ∈ msgs, m.Finite = true := fun m hm => (hmsg m hm).2
  set body := encodedPayload msgs with hbody_def
  have hbodylen : body.length = msgs.length * DriveCmd.kWireSize :=
    encodedPayload_length msgs
  set pre := [header.major, header.minor, header.flags] ++
    storeU16 DriveCmd.kTypeId ++ storeU16 msgs.length ++ body with hpre_def
  have hprelen : pre.length = kHeaderSizeV3 + msgs.length * DriveCmd.kWireSize := by
    rw [hpre_def]
    simp only [List.length_append, List.length_cons, List.length_nil,
      storeU16_length, hbodylen]
    unfold kHeaderSizeV3
    omega
  set crc := ComputeCrc32 pre with hcrc_def
  set bytes := pre ++ storeU32 crc with hbytes_def
  have hbyteslen : bytes.length =
      kHeaderSizeV3 + msgs.length * DriveCmd.kWireSize + kChecksumSize := by
    rw [hbytes_def]
    simp only [List.length_append, storeU32_length, hprelen]
    rfl
  have henc : EncodeTypedPacket header msgs capacity = some bytes := by
    unfold EncodeTypedPacket
    rw [if_neg (by omega), if_neg (by omega), encodeMessages_eq_some msgs hfin]
  -- the parsed header of the encoded frame
  have hpre_cons : pre = header.major :: header.minor :: header.flags ::
      (DriveCmd.kTypeId / 256 % 256) :: (DriveCmd.kTypeId % 256) ::
      (msgs.length / 256 % 256) :: (msgs.length % 256) :: body := by
    rw [hpre_def]
    simp [storeU16]
  have hparse : parseHeader bytes =
      ⟨header.major, header.minor, header.flags, DriveCmd.kTypeId, msgs.length⟩ := by
    have hbytes_cons : bytes = header.major :: header.minor :: header.flags ::
        (DriveCmd.kTypeId / 256 % 256) :: (DriveCmd.kTypeId % 256) ::
        (msgs.length / 256 % 256) :: (msgs.length % 256) :: (body ++ storeU32 crc) := by
      rw [hbytes_def, hpre_cons]
      simp
    rw [hbytes_cons]
    unfold parseHeader
    simp only [List.getD_cons_zero, List.getD_cons_succ]
    have h1 : loadU16 (DriveCmd.kTypeId / 256 % 256) (DriveCmd.kTypeId % 256)
        = DriveCmd.kTypeId := by decide
    have h2 : loadU16 (msgs.length / 256 % 256) (msgs.length % 256) = msgs.length :=
      loadU16_storeU16 msgs.length (by
        have h3 : msgs.length ≤ kMaxMessagesPerPacket := hn
        unfold kMaxMessagesPerPacket at h3
        omega)
    rw [h1, h2]
  have hdrop7 : bytes.drop kHeaderSizeV3 = body ++ storeU32 crc := by
    have hsplit : bytes = ([header.major, header.minor, header.flags] ++
        storeU16 DriveCmd.kTypeId ++ storeU16 msgs.length) ++ (body ++ storeU32 crc) := by
      rw [hbytes_def, hpre_def]
      simp
    rw [hsplit]
    have hlen7 : ([header.major, header.minor, header.flags] ++
        storeU16 DriveCmd.kTypeId ++ storeU16 msgs.length).length = kHeaderSizeV3 := by
      simp [storeU16, kHeaderSizeV3]
    rw [← hlen7]
    exact drop_append_length _ _
  have htakepre : bytes.take (kHeaderSizeV3 + msgs.length * DriveCmd.kWireSize) = pre := by
    rw [hbytes_def, ← hprelen]
    exact take_append_length _ _
  have hdroppre : bytes.drop (kHeaderSizeV3 + msgs.length * DriveCmd.kWireSize)
      = storeU32 crc := by
    rw [hbytes_def, ← hprelen]
    exact drop_append_length _ _
  have hcrclt : crc < 4294967296 := computeCrc32_lt pre
  have hgetcrc : ∀ i : Nat,
      bytes.getD (kHeaderSizeV3 + msgs.length * DriveCmd.kWireSize + i) 0
        = (storeU32 crc).getD i 0 := by
    intro i
    rw [hbytes_def, ← hprelen]
    exact getD_append_add _ _ i
  have htx : loadU32 (bytes.getD (kHeaderSizeV3 + msgs.length * DriveCmd.kWireSize) 0)
      (bytes.getD (kHeaderSizeV3 + msgs.length * DriveCmd.kWireSize + 1) 0)
      (bytes.getD (kHeaderSizeV3 + msgs.length * DriveCmd.kWireSize + 2) 0)
      (bytes.getD (kHeaderSizeV3 + msgs.length * DriveCmd.kWireSize + 3) 0) = crc := by
    have h0 := hgetcrc 0
    rw [Nat.add_zero] at h0
    rw [h0, hgetcrc 1, hgetcrc 2, hgetcrc 3]
    simp only [storeU32, List.getD_cons_zero, List.getD_cons_succ]
    exact loadU32_storeU32 crc hcrclt
  have hval : validateDriveCmds (bytes.drop kHeaderSizeV3) msgs.length = true := by
    rw [hdrop7]
    exact validateDriveCmds_encodedPayload msgs _ hmsg
  have hview : DecodePacketView reg bytes =
      ⟨some ⟨⟨header.major, header.minor, header.flags, DriveCmd.kTypeId, msgs.length⟩,
        body ++ storeU32 crc⟩, .None, bytes.length⟩ := by
    unfold DecodePacketView
    rw [if_neg (by rw [hbyteslen]; unfold kHeaderSizeV3 kChecksumSize; omega)]
    rw [hparse]
    rw [if_neg (by simp [hmaj, hmin])]
    simp only
    rw [hreg]
    simp only
    rw [if_neg (by simpa using hn)]
    rw [if_neg (by rw [hbyteslen]; omega)]
    rw [htx]
    rw [htakepre, ← hcrc_def, if_neg (by simp)]
    rw [if_neg (by rw [hval]; simp)]
    rw [hdrop7, hbyteslen]
  refine ⟨bytes, henc, hbyteslen, hdroppre.trans (by rw [htakepre]), ?_⟩
  refine ⟨⟨⟨header.major, header.minor, header.flags, DriveCmd.kTypeId, msgs.length⟩,
    body ++ storeU32 crc⟩, hview, ?_, ?_⟩
  · cases header
    simp only at htype hcnt ⊢
    rw [htype, hcnt]
  · unfold DecodeTypedPacket
    have hguard : ¬ ((⟨⟨header.major, header.minor, header.flags, DriveCmd.kTypeId,
        msgs.length⟩, body ++ storeU32 crc⟩ : PacketView).header.messageType
          ≠ DriveCmd.kTypeId) := by simp
    rw [if_neg hguard]
    show (decodeMessages (body ++ storeU32 crc) msgs.length).map _ = _
    rw [decodeMessages_encodedPayload msgs _ hmsg]
    cases header
    simp only at htype hcnt ⊢
    rw [htype, hcnt]
    rfl

/-- The registry of the demonstration schema: `DriveCmd` is the only
registered type (spec scenario A). -/
def demoRegistry : Nat → Option Nat :=
  fun t => if t = DriveCmd.kTypeId then some DriveCmd.kWireSize else none

/-- Scenario A's two drive commands `(0.5, -1.0, 1500)` and
`(-0.25, 0.25, 500)` as raw IEEE-754 bit patterns. -/
def demoMsgs : List DriveCmd :=
  [⟨1056964608, 3212836864, 1500⟩, ⟨3196059648, 1048576000, 500⟩]

/-- Witness for C1 at scenario A's two-command drive packet: 31 bytes,
decoded back to the original. -/
theorem encode_decode_roundtrip_witness :
    ∃ bytes, EncodeTypedPacket ⟨3, 0, 1, 1, 2⟩ demoMsgs 31 = some bytes ∧
      bytes.length = 31 ∧
      ∃ v, DecodePacketView demoRegistry bytes = ⟨some v, .None, 31⟩ ∧
        DecodeTypedPacket v = some (⟨3, 0, 1, 1, 2⟩, demoMsgs) := by
  obtain ⟨bytes, h1, h2, _, v, h4, _, h6⟩ :=
    encode_decode_roundtrip demoRegistry ⟨3, 0, 1, 1, 2⟩ demoMsgs 31
      (by decide) rfl rfl rfl (by decide) (by decide) (by decide) (by decide)
  have h2' : bytes.length = 31 := h2.trans (by decide)
  exact ⟨bytes, h1, h2', v, by rw [h4, h2'], h6⟩

/-! ## Ordered decode checks of `DecodePacketView` (C3) -/

/-- The full frame size computed by the decoder:
`header + count·wireSize + CRC`. -/
def fullFrameSize (count wireSize : Nat) : Nat :=
  kHeaderSizeV3 + count * wireSize + kChecksumSize

/-- The CRC32 transmitted in a frame whose header+payload spans
`payloadSize` bytes: the four big-endian bytes that follow. -/
def transmittedCrcAt (data : List Nat) (payloadSize : Nat) : Nat :=
  loadU32 (data.getD payloadSize 0) (data.getD (payloadSize + 1) 0)
    (data.getD (payloadSize + 2) 0) (data.getD (payloadSize + 3) 0)

/-- C3: `DecodePacketView` performs its checks in order — fewer than 7
bytes give `TooSmall` with 0 consumed; a version mismatch gives
`UnsupportedVersion` with 1 consumed; past those and a known message
type, a count over 65535 gives `TooManyMessages` with 1 consumed, a
missing tail gives `Truncated` with 0 consumed, a CRC mismatch gives
`ChecksumMismatch` consuming the full frame, and a successful decode
yields a view consuming the full frame. -/
theorem decodePacketView_check_order (reg : Nat → Option Nat) (data : List Nat) :
    (data.length < kHeaderSizeV3 →
      DecodePacketView reg data = ⟨none, .TooSmall, 0⟩) ∧
    (kHeaderSizeV3 ≤ data.length →
      ((parseHeader data).major ≠ kProtocolMajorV3 ∨
        (parseHeader data).minor ≠ kProtocolMinorV3) →
      DecodePacketView reg data = ⟨none, .UnsupportedVersion, 1⟩) ∧
    ∀ wireSize, kHeaderSizeV3 ≤ data.length →
      (parseHeader data).major = kProtocolMajorV3 →
      (parseHeader data).minor = kProtocolMinorV3 →
      reg (parseHeader data).messageType = some wireSize →
      (kMaxMessagesPerPacket < (parseHeader data).messageCount →
        DecodePacketView reg data = ⟨none, .TooManyMessages, 1⟩) ∧
      ((parseHeader data).messageCount ≤ kMaxMessagesPerPacket →
        (data.length < fullFrameSize (parseHeader data).messageCount wireSize →
          DecodePacketView reg data = ⟨none, .Truncated, 0⟩) ∧
        (fullFrameSize (parseHeader data).messageCount wireSize ≤ data.length →
          (transmittedCrcAt data (kHeaderSizeV3 + (parseHeader data).messageCount * wireSize)
              ≠ ComputeCrc32 (data.take (kHeaderSizeV3 + (parseHeader data).messageCount * wireSize)) →
            DecodePacketView reg data =
              ⟨none, .ChecksumMismatch, fullFrameSize (parseHeader data).messageCount wireSize⟩) ∧
          ((DecodePacketView reg data).error = .None →
            ∃ v, DecodePacketView reg data =
              ⟨some v, .None, fullFrameSize (parseHeader data).messageCount wireSize⟩))) := by
  refine ⟨?_, ?_, ?_⟩
  · intro hsmall
    unfold DecodePacketView
    rw [if_pos hsmall]
  · intro hbig hver
    unfold DecodePacketView
    rw [if_neg (by omega), if_pos hver]
  · intro wireSize hbig hmaj hmin hreg
    constructor
    · intro hcount
      unfold DecodePacketView
      rw [if_neg (by omega), if_neg (by simp [hmaj, hmin])]
      simp only
      rw [hreg]
      simp only
      rw [if_pos (by omega)]
    · intro hcount
      constructor
      · intro htrunc
        unfold DecodePacketView
        rw [if_neg (by omega), if_neg (by simp [hmaj, hmin])]
        simp only
        rw [hreg]
        simp only
        rw [if_neg (by omega)]
        rw [if_pos (by unfold fullFrameSize at htrunc; omega)]
      · intro hframe
        constructor
        · intro hcrc
          unfold DecodePacketView
          rw [if_neg (by omega), if_neg (by simp [hmaj, hmin])]
          simp only
          rw [hreg]
          simp only
          rw [if_neg (by omega)]
          rw [if_neg (by
            unfold fullFrameSize at hframe
            omega)]
          rw [if_pos (by
            unfold transmittedCrcAt at hcrc
            exact hcrc)]
          rfl
        · intro hok
          unfold DecodePacketView at hok ⊢
          rw [if_neg (by omega), if_neg (by simp [hmaj, hmin])] at hok ⊢
          simp only at hok ⊢
          rw [hreg] at hok ⊢
          simp only at hok ⊢
          rw [if_neg (by omega)] at hok ⊢
          rw [if_neg (by unfold fullFrameSize at hframe; omega)] at hok ⊢
          by_cases hc : transmittedCrcAt data
              (kHeaderSizeV3 + (parseHeader data).messageCount * wireSize)
                ≠ ComputeCrc32 (data.take
                  (kHeaderSizeV3 + (parseHeader data).messageCount * wireSize))
          · rw [if_pos (by unfold transmittedCrcAt at hc; exact hc)] at hok
            cases hok
          · rw [if_neg (by unfold transmittedCrcAt at hc; exact hc)] at hok ⊢
            by_cases hval : (parseHeader data).messageType = DriveCmd.kTypeId ∧
                validateDriveCmds (data.drop kHeaderSizeV3)
                  (parseHeader data).messageCount = false
            · rw [if_pos hval] at hok
              cases hok
            · rw [if_neg hval]
              exact ⟨_, rfl⟩

/-- Witness for C3: each reachable case exercised at a concrete input —
a 3-byte input (`TooSmall`), a wrong-version 7-byte header
(`UnsupportedVersion`), a truncated single-command frame (`Truncated`),
a corrupted CRC on a valid frame (`ChecksumMismatch`), and scenario A's
valid frame (success).  (The `TooManyMessages` branch is unreachable:
the count field is 16 bits, so it never exceeds 65535.) -/
theorem decodePacketView_check_order_witness :
    DecodePacketView demoRegistry [1, 2, 3] = ⟨none, .TooSmall, 0⟩ ∧
    DecodePacketView demoRegistry [4, 0, 0, 0, 1, 0, 0] =
      ⟨none, .UnsupportedVersion, 1⟩ ∧
    DecodePacketView demoRegistry [3, 0, 0, 0, 1, 0, 1] = ⟨none, .Truncated, 0⟩ ∧
    DecodePacketView demoRegistry
        [3, 0, 1, 0, 1, 0, 1,
         63, 0, 0, 0, 191, 128, 0, 0, 5, 220,
         255, 255, 255, 255] = ⟨none, .ChecksumMismatch, 21⟩ ∧
    (DecodePacketView demoRegistry
        [3, 0, 1, 0, 1, 0, 1,
         63, 0, 0, 0, 191, 128, 0, 0, 5, 220,
         14, 6, 213, 169]).bytesConsumed = 21 := by
  refine ⟨?_, ?_, ?_, ?_, ?_⟩
  · exact (decodePacketView_check_order demoRegistry [1, 2, 3]).1 (by decide)
  · exact (decodePacketView_check_order demoRegistry
      [4, 0, 0, 0, 1, 0, 0]).2.1 (by decide) (by decide)
  · exact (((decodePacketView_check_order demoRegistry
      [3, 0, 0, 0, 1, 0, 1]).2.2 10 (by decide) (by decide) (by decide)
        (by decide)).2 (by decide)).1 (by decide)
  · exact ((((decodePacketView_check_order demoRegistry
      [3, 0, 1, 0, 1, 0, 1, 63, 0, 0, 0, 191, 128, 0, 0, 5, 220,
        255, 255, 255, 255]).2.2 10 (by decide) (by decide) (by decide)
        (by decide)).2 (by decide)).2 (by decide)).1 (by decide)
  · obtain ⟨v, hv⟩ := ((((decodePacketView_check_order demoRegistry
      [3, 0, 1, 0, 1, 0, 1, 63, 0, 0, 0, 191, 128, 0, 0, 5, 220,
        14, 6, 213, 169]).2.2 10 (by decide) (by decide) (by decide)
        (by decide)).2 (by decide)).2 (by decide)).2 (by decide)
    rw [hv]
    rfl

/-! ## The message iterator never fails (C10) -/

theorem readMessagesGo_length (fuel : Nat) :
    ∀ p : List Nat, (readMessagesGo fuel ⟨p, fuel⟩).length = fuel := by
  induction fuel with
  | zero => intro p; rfl
  | succ k ih =>
      intro p
      unfold readMessagesGo
      rw [if_neg (by simp [MessageIterator.iterEq, PacketView.endAs])]
      simp only [List.length_cons]
      unfold MessageIterator.inc
      simp only [Nat.lt_irrefl, Nat.succ_sub_one, if_pos (Nat.succ_pos k)]
      by_cases hk : k = 0
      · subst hk
        simp [readMessagesGo]
      · rw [if_neg (by simpa using hk)]
        rw [ih (p.drop DriveCmd.kWireSize)]

/-- C10: dereferencing a message iterator never signals failure — when the
bytes at the current position fail `DriveCmd::Decode`, `operator*` yields a
default-constructed message — and iterating a matching-type view from
`begin_as` to `end_as` yields exactly `messageCount` values regardless of
the payload bytes. -/
theorem messageIterator_total (v : PacketView)
    (hty : v.header.messageType = DriveCmd.kTypeId) :
    (readMessages v.beginAs).length = v.header.messageCount ∧
    ∀ it : MessageIterator,
      DriveCmd.Decode (it.ptr.take DriveCmd.kWireSize) = none →
      it.deref = default := by
  constructor
  · unfold PacketView.beginAs
    rw [if_neg (by simp [hty])]
    exact readMessagesGo_length v.header.messageCount v.payload
  · intro it hfail
    unfold MessageIterator.deref
    rw [hfail]
    rfl

/-- Witness for C10: a single-message view whose payload is a NaN float
(exponent all ones) still yields exactly one (default) message. -/
theorem messageIterator_total_witness :
    (readMessages (PacketView.beginAs
        ⟨⟨3, 0, 0, 1, 1⟩, [255, 255, 255, 255, 0, 0, 0, 0, 0, 100]⟩)).length = 1 ∧
    MessageIterator.deref ⟨[255, 255, 255, 255, 0, 0, 0, 0, 0, 100], 1⟩ = default := by
  obtain ⟨h1, h2⟩ := messageIterator_total
    ⟨⟨3, 0, 0, 1, 1⟩, [255, 255, 255, 255, 0, 0, 0, 0, 0, 100]⟩ rfl
  exact ⟨h1, h2 _ (by decide)⟩

/-! ## The timed message queue (`message_queue.h`)

Time points are `Int` milliseconds; the `Clock::time_point::min()` sentinel
(used by the source for "never received" and, paired with
`m_hasVirtualCursor`, for "cursor unset") is modelled by `Option Int`: every
assignment in the source either stores a real time with the flag set or the
sentinel with the flag cleared, so the pair is exactly an option. -/

/-- `MessageQueueConfig` of `message_queue.h` (durations in ms). -/
structure MessageQueueConfig where
  capacity : Nat
  connectionTimeout : Int
  maxCommandLag : Int
deriving DecidableEq, Inhabited

/-- `MessageQueueMetrics` of `message_queue.h`. -/
structure MessageQueueMetrics where
  messagesReceived : Nat
  queueOverflows : Nat
  messagesSkipped : Nat
deriving DecidableEq, Inhabited

/-- The `HasDurationMs` trait of `message_queue.h`: message types usable
with the queue expose a `uint16_t durationMs` field. -/
class HasDurationMs (M : Type) where
  durationMs : M → Nat

/-- The duration of a message as a millisecond time span
(`std::chrono::milliseconds(msg.durationMs)`). -/
def durMs {M : Type} [HasDurationMs M] (m : M) : Int :=
  (HasDurationMs.durationMs m : Int)

/-- The state of a `MessageQueue<M>`: configuration, metrics, the ring
buffer (`m_storage`/`m_head`/`m_tail`/`m_count`), the active slot
(message and scheduled start), the virtual cursor and the last-receive
stamp. -/
structure QueueState (M : Type) where
  config : MessageQueueConfig
  metrics : MessageQueueMetrics
  storage : List M
  head : Nat
  tail : Nat
  count : Nat
  active : Option (M × Int)
  virtualCursor : Option Int
  lastRx : Option Int
deriving DecidableEq

section MessageQueue

variable {M : Type} [HasDurationMs M] [Inhabited M]

/-- `MessageQueue::Capacity` (`m_storage.size()`). -/
def Capacity (s : QueueState M) : Nat := s.storage.length

/-- `MessageQueue::EffectiveDepth`. -/
def EffectiveDepth (s : QueueState M) : Nat := min s.config.capacity (Capacity s)

/-- `MessageQueue::ClearUnlocked`. -/
def ClearUnlocked (s : QueueState M) : QueueState M :=
  { s with head := 0, tail := 0, count := 0, active := none, virtualCursor := none }

/-- `MessageQueue::PushUnlocked`: the `Bool` is the C++ return value. -/
def PushUnlocked (m : M) (s : QueueState M) : Bool × QueueState M :=
  if EffectiveDepth s ≤ s.count then (false, s)
  else (true, { s with storage := s.storage.set s.tail m,
                       tail := (s.tail + 1) % Capacity s,
                       count := s.count + 1 })

/-- `MessageQueue::Push`: `PushUnlocked` plus metrics accounting. -/
def Push (m : M) (s : QueueState M) : Bool × QueueState M :=
  match PushUnlocked m s with
  | (false, _) =>
      (false, { s with metrics :=
        { s.metrics with queueOverflows := s.metrics.queueOverflows + 1 } })
  | (true, s') =>
      (true, { s' with metrics :=
        { s'.metrics with messagesReceived := s'.metrics.messagesReceived + 1 } })

/-- `MessageQueue::PopUnlocked`. -/
def PopUnlocked (s : QueueState M) : QueueState M :=
  if s.count = 0 then s
  else { s with head := (s.head + 1) % Capacity s, count := s.count - 1 }

/-- `MessageQueue::FrontUnlocked` (`m_storage[m_head]`). -/
def FrontUnlocked (s : QueueState M) : M := s.storage.getD s.head default

/-- `MessageQueue::IsConnectedUnlocked`: false until the first
`NotifyReceived`, then `now - lastRx ≤ connectionTimeout`. -/
def IsConnectedUnlocked (now : Int) (s : QueueState M) : Bool :=
  match s.lastRx with
  | none => false
  | some rx => decide (now - rx ≤ s.config.connectionTimeout)

/-- `MessageQueue::NotifyReceived`. -/
def NotifyReceived (now : Int) (s : QueueState M) : QueueState M :=
  { s with lastRx := some now }

/-- `MessageQueue::Size`. -/
def Size (s : QueueState M) : Nat := s.count

/-- `MessageQueue::ActiveMessage`. -/
def ActiveMessage (s : QueueState M) : Option M := s.active.map Prod.fst

/-- The `while (m_count > 0)` loop of `MessageQueue::PromoteNext`, with the
virtual cursor threaded explicitly (the source mutates `m_virtualCursor`;
every exit path stores it back).  The fuel (first argument) is the ring
count, which each iteration decrements.  The second component reports the
message activated by this call, if any. -/
def promoteLoop (now lagFloor : Int) :
    Nat → QueueState M → Int → QueueState M × Option M
  | 0, s, cursor => ({ s with virtualCursor := some cursor }, none)
  | fuel + 1, s, cursor =>
    if s.count = 0 then ({ s with virtualCursor := some cursor }, none)
    else
      let next := FrontUnlocked s
      let d := durMs next
      let projectedEnd := cursor + d
      if projectedEnd ≤ lagFloor then
        promoteLoop now lagFloor fuel
          { PopUnlocked s with metrics :=
            { s.metrics with messagesSkipped := s.metrics.messagesSkipped + 1 } }
          projectedEnd
      else
        let projectedStart := if cursor < lagFloor then lagFloor else cursor
        ({ PopUnlocked s with active := some (next, projectedStart),
                              virtualCursor := some (projectedStart + d) },
         some next)

/-- `MessageQueue::PromoteNext` (`message_queue.h` lines 305-340): set an
unset cursor to `now`; on an empty ring advance the cursor to at most
`now`; otherwise run the skip/activate loop against
`lagFloor = now - maxCommandLag`. -/
def PromoteNext (now : Int) (s : QueueState M) : QueueState M × Option M :=
  let cursor := s.virtualCursor.getD now
  if s.count = 0 then ({ s with virtualCursor := some (max cursor now) }, none)
  else promoteLoop now (now - s.config.maxCommandLag) s.count s cursor

/-- The `while (true)` loop of `MessageQueue::Update`: finish an elapsed
active message (advancing the cursor to its end), promote the next one,
and repeat while promotions succeed.  Each recursive call follows an
activation, which consumed a ring element, so `count + 1` fuel suffices.
The second component lists the messages activated during the call, in
order. -/
def updateLoop (now : Int) : Nat → QueueState M → QueueState M × List M
  | 0, s => (s, [])
  | fuel + 1, s =>
    match s.active with
    | some (msg, start) =>
      if now - start < durMs msg then (s, [])
      else
        let s1 := { s with active := none, virtualCursor := some (start + durMs msg) }
        match PromoteNext now s1 with
        | (s2, none) => (s2, [])
        | (s2, some m) =>
          let r := updateLoop now fuel s2
          (r.1, m :: r.2)
    | none =>
      match PromoteNext now s with
      | (s2, none) => (s2, [])
      | (s2, some m) =>
        let r := updateLoop now fuel s2
        (r.1, m :: r.2)

/-- `MessageQueue::Update` (`message_queue.h` lines 160-190) instrumented
with the list of messages it activates: on a connection timeout clear
everything and unset the cursor, otherwise run the drain loop. -/
def UpdateT (now : Int) (s : QueueState M) : QueueState M × List M :=
  if IsConnectedUnlocked now s then updateLoop now (s.count + 1) s
  else (ClearUnlocked s, [])

/-- `MessageQueue::Update` of `message_queue.h` (state effect only). -/
def Update (now : Int) (s : QueueState M) : QueueState M := (UpdateT now s).1

/-- The capacity clamp of `MessageQueue::ClampConfig`
(`capacity == 0` becomes the default 200). -/
def clampCapacity (c : MessageQueueConfig) : MessageQueueConfig :=
  if c.capacity = 0 then { c with capacity := 200 } else c

/-- The lag clamp of `MessageQueue::ClampConfig`
(`maxCommandLag ≤ 0` becomes 1 ms). -/
def clampLag (c : MessageQueueConfig) : MessageQueueConfig :=
  if c.maxCommandLag ≤ 0 then { c with maxCommandLag := 1 } else c

/-- `MessageQueue::ClampConfig`: the source's two sequential clamps. -/
def ClampConfig (c : MessageQueueConfig) : MessageQueueConfig :=
  clampLag (clampCapacity c)

/-- `std::vector::resize`: truncate or extend with default elements. -/
def resizeList (l : List M) (n : Nat) : List M :=
  l.take n ++ List.replicate (n - l.length) default

/-- `MessageQueue::SetConfig`: clamp, and clear + resize when the capacity
changed. -/
def SetConfig (cfg : MessageQueueConfig) (s : QueueState M) : QueueState M :=
  let s1 : QueueState M := { s with config := ClampConfig cfg }
  if s1.storage.length ≠ s1.config.capacity then
    let s2 := ClearUnlocked s1
    { s2 with storage := resizeList s2.storage s1.config.capacity }
  else s1

/-- The `MessageQueue` constructor: clamp the configuration and allocate
`capacity` default-constructed slots. -/
def mkQueue (cfg : MessageQueueConfig) : QueueState M :=
  { config := ClampConfig cfg
    metrics := ⟨0, 0, 0⟩
    storage := List.replicate (ClampConfig cfg).capacity default
    head := 0
    tail := 0
    count := 0
    active := none
    virtualCursor := none
    lastRx := none }

/-- The queued messages in ring order (head first). -/
def ringList (s : QueueState M) : List M :=
  (List.range s.count).map
    (fun i => s.storage.getD ((s.head + i) % s.storage.length) default)

end MessageQueue

/-- A minimal timed message type for concrete queue runs: an identifier and
the `durationMs` field required by the queue's trait. -/
structure TMsg where
  id : Nat
  durationMs : Nat
deriving DecidableEq, Inhabited

instance : HasDurationMs TMsg := ⟨TMsg.durationMs⟩

/-! ## Disconnect safety (C2) -/

/-- C2: whenever `now - lastRx` exceeds the connection timeout — or no
`NotifyReceived` has ever stamped the queue — `Update` clears the ring,
drops the active slot and unsets the virtual cursor; afterwards
`ActiveMessage` is `none` and `Size` is zero. -/
theorem update_disconnected {M : Type} [HasDurationMs M] [Inhabited M]
    (s : QueueState M) (now : Int)
    (h : s.lastRx = none ∨
      ∃ rx, s.lastRx = some rx ∧ s.config.connectionTimeout < now - rx) :
    Update now s = ClearUnlocked s ∧
    Size (Update now s) = 0 ∧
    ActiveMessage (Update now s) = none ∧
    (Update now s).virtualCursor = none := by
  have hconn : IsConnectedUnlocked now s = false := by
    unfold IsConnectedUnlocked
    rcases h with h | ⟨rx, hrx, hlt⟩
    · rw [h]
    · rw [hrx]
      simp only [decide_eq_false_iff_not, not_le]
      omega
  have hupd : Update now s = ClearUnlocked s := by
    unfold Update UpdateT
    rw [hconn]
    rfl
  refine ⟨hupd, ?_, ?_, ?_⟩ <;> rw [hupd] <;> rfl

/-- A queue that held one active command and one queued command, last
stamped at time 1000 with a 200 ms timeout. -/
def staleQueue : QueueState TMsg :=
  { config := ⟨10, 200, 100⟩
    metrics := ⟨2, 0, 0⟩
    storage := ⟨9, 500⟩ :: List.replicate 9 default
    head := 0
    tail := 1
    count := 1
    active := some (⟨5, 60000⟩, 1000)
    virtualCursor := some 61000
    lastRx := some 1000 }

/-- Witness for C2: at `now = 1251` (251 ms after the last receive, past
the 200 ms timeout) the stale queue is emptied. -/
theorem update_disconnected_witness :
    Update 1251 staleQueue = ClearUnlocked staleQueue ∧
    Size (Update 1251 staleQueue) = 0 ∧
    ActiveMessage (Update 1251 staleQueue) = none ∧
    (Update 1251 staleQueue).virtualCursor = none :=
  update_disconnected staleQueue 1251 (Or.inr ⟨1000, rfl, by decide⟩)

/-! ## The promotion step (C5) -/

/-- C5: with the ring non-empty and the cursor set to `c`, `PromoteNext` at
`now` (with `lagFloor = now - maxCommandLag`) either — when the head's
projected end `c + d` is at or before `lagFloor` — pops the head without
activating it, counts it as skipped, and continues the loop with the
cursor advanced exactly to `c + d`; or — otherwise — activates the head
with start `c` clamped up to `lagFloor`, pops it, and sets the cursor to
`start + d`. -/
theorem promoteNext_head_cases {M : Type} [HasDurationMs M] [Inhabited M]
    (s : QueueState M) (now c : Int)
    (hc : s.virtualCursor = some c) (hcount : 0 < s.count) :
    (c + durMs (FrontUnlocked s) ≤ now - s.config.maxCommandLag →
      PromoteNext now s =
        promoteLoop now (now - s.config.maxCommandLag) (s.count - 1)
          { PopUnlocked s with metrics :=
            { s.metrics with messagesSkipped := s.metrics.messagesSkipped + 1 } }
          (c + durMs (FrontUnlocked s))) ∧
    (now - s.config.maxCommandLag < c + durMs (FrontUnlocked s) →
      PromoteNext now s =
        ({ PopUnlocked s with
            active := some (FrontUnlocked s,
              if c < now - s.config.maxCommandLag then now - s.config.maxCommandLag
              else c),
            virtualCursor := some ((if c < now - s.config.maxCommandLag
              then now - s.config.maxCommandLag else c) + durMs (FrontUnlocked s)) },
         some (FrontUnlocked s))) := by
  obtain ⟨k, hk⟩ : ∃ k, s.count = k + 1 :=
    ⟨s.count - 1, by omega⟩
  have hstep : PromoteNext now s =
      promoteLoop now (now - s.config.maxCommandLag) (k + 1) s c := by
    unfold PromoteNext
    rw [hc]
    simp only [Option.getD_some]
    rw [if_neg (by omega), hk]
  constructor
  · intro hskip
    rw [hstep]
    conv_lhs => rw [promoteLoop]
    rw [if_neg (by omega)]
    simp only
    rw [if_pos hskip, hk]
    simp only [Nat.add_sub_cancel]
  · intro hact
    rw [hstep]
    conv_lhs => rw [promoteLoop]
    rw [if_neg (by omega)]
    simp only
    rw [if_neg (by omega)]

/-- A connected queue holding two commands with the cursor lagging far
behind `now = 2000`: the head (duration 10, projected end 1110) is stale,
the second (duration 1000) is not. -/
def laggedQueue : QueueState TMsg :=
  { config := ⟨10, 100000, 100⟩
    metrics := ⟨2, 0, 0⟩
    storage := ⟨2, 10⟩ :: ⟨3, 1000⟩ :: List.replicate 8 default
    head := 0
    tail := 2
    count := 2
    active := none
    virtualCursor := some 1100
    lastRx := some 1990 }

/-- `laggedQueue` after its stale head was skipped: one command left, the
cursor at the skipped head's projected end. -/
def laggedQueue2 : QueueState TMsg :=
  { laggedQueue with head := 1, count := 1, virtualCursor := some 1110 }

/-- Witness for C5: at `now = 2000` (lag floor 1900) the stale head of
`laggedQueue` is skipped with the cursor advanced to its projected end
1110, and on the resulting queue the next head is activated with its
projected start clamped to the lag floor. -/
theorem promoteNext_head_cases_witness :
    PromoteNext 2000 laggedQueue =
      promoteLoop 2000 1900 1
        { PopUnlocked laggedQueue with metrics :=
          { laggedQueue.metrics with
            messagesSkipped := laggedQueue.metrics.messagesSkipped + 1 } }
        1110 ∧
    PromoteNext 2000 laggedQueue2 =
      ({ PopUnlocked laggedQueue2 with
          active := some ((⟨3, 1000⟩ : TMsg), 1900),
          virtualCursor := some 2900 },
       some (⟨3, 1000⟩ : TMsg)) := by
  constructor
  · have h := (promoteNext_head_cases laggedQueue 2000 1100 rfl (by decide)).1
      (by decide)
    exact h.trans (by decide)
  · have h := (promoteNext_head_cases laggedQueue2 2000 1110 rfl (by decide)).2
      (by decide)
    exact h.trans (by decide)

/-! ## Ring and cursor lemmas for the queue invariants (C4, C9) -/

/-- Order on optional cursors: an unset cursor precedes everything. -/
def cursorLE : Option Int → Option Int → Prop
  | none, _ => True
  | some _, none => False
  | some a, some b => a ≤ b

theorem cursorLE_refl (c : Option Int) : cursorLE c c := by
  cases c <;> simp [cursorLE]

theorem cursorLE_trans {a b c : Option Int} (h1 : cursorLE a b) (h2 : cursorLE b c) :
    cursorLE a c := by
  cases a <;> cases b <;> cases c <;> simp_all [cursorLE]
  omega

section QueueLemmas

variable {M : Type} [HasDurationMs M] [Inhabited M]

theorem ringList_eq_of (s t : QueueState M) (hs : t.storage = s.storage)
    (hh : t.head = s.head) (hc : t.count = s.count) : ringList t = ringList s := by
  unfold ringList
  rw [hs, hh, hc]

theorem ringList_length (s : QueueState M) : (ringList s).length = s.count := by
  unfold ringList
  simp

theorem ringList_cons (s : QueueState M) (h0 : 0 < s.count)
    (hh : s.head < s.storage.length) :
    ringList s = FrontUnlocked s :: ringList (PopUnlocked s) := by
  obtain ⟨k, hk⟩ : ∃ k, s.count = k + 1 := ⟨s.count - 1, by omega⟩
  unfold ringList PopUnlocked FrontUnlocked Capacity
  rw [if_neg (by omega)]
  simp only [hk, Nat.add_sub_cancel, List.range_succ_eq_map, List.map_cons,
    List.map_map]
  refine congrArg₂ List.cons ?_ ?_
  · rw [Nat.add_zero, Nat.mod_eq_of_lt hh]
  · refine List.map_congr_left ?_
    intro i _
    simp only [Function.comp]
    rw [Nat.mod_add_mod]
    have harg : s.head + 1 + i = s.head + (i + 1) := by omega
    rw [harg]

theorem popUnlocked_storage (s : QueueState M) : (PopUnlocked s).storage = s.storage := by
  unfold PopUnlocked
  split <;> rfl

theorem popUnlocked_config (s : QueueState M) : (PopUnlocked s).config = s.config := by
  unfold PopUnlocked
  split <;> rfl

theorem popUnlocked_lastRx (s : QueueState M) : (PopUnlocked s).lastRx = s.lastRx := by
  unfold PopUnlocked
  split <;> rfl

theorem popUnlocked_active (s : QueueState M) : (PopUnlocked s).active = s.active := by
  unfold PopUnlocked
  split <;> rfl

/-- Every state produced by `promoteLoop` relates to its input by dropping
`k` processed messages from the ring head: the ring becomes its `k`-drop,
the (at most one) activated message comes from the dropped segment, a
`none` report leaves the slot inactive with the cursor between its input
value and `now`, and a `some m` report installs `m` with a start clamped
into `[cursor, now]` and the cursor at `start + duration`. -/
theorem promoteLoop_spec (now lagFloor : Int) (hlf : lagFloor ≤ now) :
    ∀ (fuel : Nat) (s : QueueState M) (cursor : Int) (s' : QueueState M)
      (act : Option M),
      promoteLoop now lagFloor fuel s cursor = (s', act) →
      s.count ≤ fuel → s.head < s.storage.length → cursor ≤ now →
      s.active = none →
      ∃ k,
        ringList s' = (ringList s).drop k ∧
        List.Sublist act.toList ((ringList s).take k) ∧
        s'.storage = s.storage ∧
        s'.head < s.storage.length ∧
        s'.config = s.config ∧
        s'.lastRx = s.lastRx ∧
        s'.count ≤ s.count ∧
        (act = none → s'.active = none ∧
          ∃ c', s'.virtualCursor = some c' ∧ cursor ≤ c' ∧ c' ≤ now) ∧
        (∀ m, act = some m →
          ∃ st, s'.active = some (m, st) ∧ cursor ≤ st ∧ st ≤ now ∧
            s'.virtualCursor = some (st + durMs m) ∧ s'.count < s.count) := by
  intro fuel
  induction fuel with
  | zero =>
      intro s cursor s' act heq hcnt hh hcur hact
      unfold promoteLoop at heq
      obtain ⟨hs', hact'⟩ := Prod.mk.injEq .. ▸ heq
      refine ⟨0, ?_⟩
      subst hs' hact'
      refine ⟨ringList_eq_of s _ rfl rfl rfl, by simp, rfl, hh, rfl, rfl,
        Nat.le_refl _, ?_, ?_⟩
      · intro _
        exact ⟨hact, cursor, rfl, le_refl _, hcur⟩
      · intro m hm
        cases hm
  | succ fuel ih =>
      intro s cursor s' act heq hcnt hh hcur hact
      rw [promoteLoop] at heq
      by_cases hc0 : s.count = 0
      · rw [if_pos hc0] at heq
        obtain ⟨hs', hact'⟩ := Prod.mk.injEq .. ▸ heq
        refine ⟨0, ?_⟩
        subst hs' hact'
        refine ⟨ringList_eq_of s _ rfl rfl rfl, by simp, rfl, hh, rfl, rfl,
          Nat.le_refl _, ?_, ?_⟩
        · intro _
          exact ⟨hact, cursor, rfl, le_refl _, hcur⟩
        · intro m hm
          cases hm
      · rw [if_neg hc0] at heq
        simp only at heq
        have hlen : 0 < s.storage.length := Nat.lt_of_le_of_lt (Nat.zero_le _) hh
        have hrc := ringList_cons s (by omega) hh
        by_cases hskip : cursor + durMs (FrontUnlocked s) ≤ lagFloor
        · rw [if_pos hskip] at heq
          -- skipped: recurse on the popped state
          have hpop_head : (PopUnlocked s).head < (PopUnlocked s).storage.length := by
            unfold PopUnlocked
            rw [if_neg hc0]
            exact Nat.mod_lt _ hlen
          have hpop_count : (PopUnlocked s).count = s.count - 1 := by
            unfold PopUnlocked
            rw [if_neg hc0]
          obtain ⟨k, hring, htr, hst, hhd, hcfg, hrx, hcnt', hnone, hsome⟩ :=
            ih _ _ _ _ heq
              (by
                show ({ PopUnlocked s with metrics := _ } : QueueState M).count ≤ fuel
                simp only [hpop_count]
                omega)
              (by
                show ({ PopUnlocked s with metrics := _ } : QueueState M).head
                  < ({ PopUnlocked s with metrics := _ } : QueueState M).storage.length
                exact hpop_head)
              (by
                have : (0 : Int) ≤ durMs (FrontUnlocked s) := Int.ofNat_nonneg _
                omega)
              (by
                show ({ PopUnlocked s with metrics := _ } : QueueState M).active = none
                unfold PopUnlocked
                split <;> exact hact)
          have hringpop : ringList ({ PopUnlocked s with metrics :=
              { s.metrics with messagesSkipped := s.metrics.messagesSkipped + 1 } }
                : QueueState M) = ringList (PopUnlocked s) :=
            ringList_eq_of _ _ rfl rfl rfl
          refine ⟨k + 1, ?_, ?_, ?_, ?_, ?_, ?_, ?_, ?_, ?_⟩
          · rw [hring, hringpop, hrc, List.drop_succ_cons]
          · rw [hrc]
            refine List.Sublist.trans ?_
              (List.sublist_cons_self (FrontUnlocked s)
                ((ringList (PopUnlocked s)).take k))
            rw [← hringpop]
            exact htr
          · exact hst.trans (popUnlocked_storage s)
          · exact lt_of_lt_of_eq hhd (congrArg List.length (popUnlocked_storage s))
          · exact hcfg.trans (popUnlocked_config s)
          · exact hrx.trans (popUnlocked_lastRx s)
          · have h1 : s'.count ≤ (PopUnlocked s).count := hcnt'
            rw [hpop_count] at h1
            omega
          · intro hn
            obtain ⟨ha, c', hc', hle1, hle2⟩ := hnone hn
            refine ⟨ha, c', hc', ?_, hle2⟩
            have : (0 : Int) ≤ durMs (FrontUnlocked s) := Int.ofNat_nonneg _
            omega
          · intro m hm
            obtain ⟨st, ha, hle1, hle2, hvc, hlt⟩ := hsome m hm
            refine ⟨st, ha, ?_, hle2, hvc, ?_⟩
            · have : (0 : Int) ≤ durMs (FrontUnlocked s) := Int.ofNat_nonneg _
              omega
            · have h1 : s'.count < (PopUnlocked s).count := hlt
              rw [hpop_count] at h1
              omega
        · rw [if_neg hskip] at heq
          obtain ⟨hs', hact'⟩ := Prod.mk.injEq .. ▸ heq
          subst hs' hact'
          have hpop_head : (PopUnlocked s).head < (PopUnlocked s).storage.length := by
            unfold PopUnlocked
            rw [if_neg hc0]
            exact Nat.mod_lt _ hlen
          have hpop_count : (PopUnlocked s).count = s.count - 1 := by
            unfold PopUnlocked
            rw [if_neg hc0]
          refine ⟨1, ?_, ?_, popUnlocked_storage s,
            lt_of_lt_of_eq hpop_head (congrArg List.length (popUnlocked_storage s)),
            popUnlocked_config s, popUnlocked_lastRx s, ?_, ?_, ?_⟩
          · rw [hrc, List.drop_succ_cons, List.drop_zero]
            exact ringList_eq_of _ _ rfl rfl rfl
          · rw [hrc]
            simp
          · show (PopUnlocked s).count ≤ s.count
            rw [hpop_count]
            omega
          · intro hn
            cases hn
          · intro m hm
            obtain rfl : FrontUnlocked s = m := by cases hm; rfl
            refine ⟨_, rfl, ?_, ?_, rfl, ?_⟩
            · split <;> omega
            · split <;> omega
            · show (PopUnlocked s).count < s.count
              rw [hpop_count]
              omega

/-- `PromoteNext` under an idle slot: the ring is dropped by `k`, the
activated message (if any) comes from the dropped segment, the cursor never
moves backwards, and any new active message starts no later than `now` with
the cursor at its projected end. -/
theorem promoteNext_spec (now : Int) (s s' : QueueState M) (act : Option M)
    (heq : PromoteNext now s = (s', act))
    (hh : s.head < s.storage.length)
    (hlag : 0 < s.config.maxCommandLag)
    (hwm : ∀ c, s.virtualCursor = some c → c ≤ now)
    (hact : s.active = none) :
    ∃ k,
      ringList s' = (ringList s).drop k ∧
      List.Sublist act.toList ((ringList s).take k) ∧
      s'.storage = s.storage ∧ s'.head < s.storage.length ∧
      s'.config = s.config ∧ s'.lastRx = s.lastRx ∧ s'.count ≤ s.count ∧
      cursorLE s.virtualCursor s'.virtualCursor ∧
      (act = none → s'.active = none ∧
        ∃ c', s'.virtualCursor = some c' ∧ c' ≤ now) ∧
      (∀ m, act = some m → ∃ st, s'.active = some (m, st) ∧ st ≤ now ∧
        s'.virtualCursor = some (st + durMs m) ∧ s'.count < s.count) := by
  have hcur0 : s.virtualCursor.getD now ≤ now := by
    cases hvc : s.virtualCursor with
    | none => simp
    | some c => simpa using hwm c hvc
  unfold PromoteNext at heq
  by_cases hc0 : s.count = 0
  · rw [if_pos hc0] at heq
    obtain ⟨hs', hact'⟩ := Prod.mk.injEq .. ▸ heq
    subst hs' hact'
    refine ⟨0, ringList_eq_of s _ rfl rfl rfl, by simp, rfl, hh, rfl, rfl,
      Nat.le_refl _, ?_, ?_, ?_⟩
    · cases hvc : s.virtualCursor with
      | none => simp [cursorLE]
      | some c =>
          simp only [hvc, cursorLE, Option.getD_some]
          exact le_max_left _ _
    · intro _
      exact ⟨hact, max (s.virtualCursor.getD now) now, rfl,
        max_le hcur0 (le_refl now)⟩
    · intro m hm
      cases hm
  · rw [if_neg hc0] at heq
    obtain ⟨k, hring, htr, hst, hhd, hcfg, hrx, hcnt, hnone, hsome⟩ :=
      promoteLoop_spec now (now - s.config.maxCommandLag) (by omega)
        s.count s (s.virtualCursor.getD now) s' act heq (Nat.le_refl _) hh
        hcur0 hact
    refine ⟨k, hring, htr, hst, hhd, hcfg, hrx, hcnt, ?_, ?_, ?_⟩
    · cases hvc : s.virtualCursor with
      | none => simp [cursorLE]
      | some c =>
          rw [hvc] at hnone hsome
          simp only [Option.getD_some] at hnone hsome
          cases hA : act with
          | none =>
              obtain ⟨_, c', hc', hle, _⟩ := hnone hA
              simp only [cursorLE, hc']
              exact hle
          | some m =>
              obtain ⟨st, _, hle1, _, hvc', _⟩ := hsome m hA
              simp only [cursorLE, hvc']
              have hd : (0 : Int) ≤ durMs m := Int.ofNat_nonneg _
              omega
    · intro hA
      obtain ⟨ha, c', hc', _, hle2⟩ := hnone hA
      exact ⟨ha, c', hc', hle2⟩
    · intro m hA
      obtain ⟨st, ha, _, hle2, hvc', hlt⟩ := hsome m hA
      exact ⟨st, ha, hle2, hvc', hlt⟩

/-- The `Update` drain loop with sufficient fuel: the ring is dropped by
`k`, the activation trace is a sublist of the dropped segment, the cursor
never moves backwards, and the resulting active slot (if any) holds a
strictly-positive-duration message whose projected end is the cursor; an
idle result leaves the cursor at or before `now`. -/
theorem updateLoop_spec (now : Int) :
    ∀ (fuel : Nat) (s s' : QueueState M) (tr : List M),
      updateLoop now fuel s = (s', tr) →
      s.count + 1 ≤ fuel →
      s.head < s.storage.length →
      0 < s.config.maxCommandLag →
      (∀ m st, s.active = some (m, st) → 0 < durMs m ∨ st ≤ now) →
      (∀ m st, s.active = some (m, st) → s.virtualCursor = some (st + durMs m)) →
      (s.active = none → ∀ c, s.virtualCursor = some c → c ≤ now) →
      ∃ k,
        ringList s' = (ringList s).drop k ∧
        List.Sublist tr ((ringList s).take k) ∧
        s'.storage = s.storage ∧ s'.head < s.storage.length ∧
        s'.config = s.config ∧ s'.lastRx = s.lastRx ∧ s'.count ≤ s.count ∧
        cursorLE s.virtualCursor s'.virtualCursor ∧
        (∀ m st, s'.active = some (m, st) → 0 < durMs m) ∧
        (∀ m st, s'.active = some (m, st) → s'.virtualCursor = some (st + durMs m)) ∧
        (s'.active = none → ∀ c, s'.virtualCursor = some c → c ≤ now) := by
  intro fuel
  induction fuel with
  | zero =>
      intro s s' tr _ hcnt
      exact absurd hcnt (by omega)
  | succ fuel ih =>
      intro s s' tr heq hcnt hh hlag hok hlink hidle
      rw [updateLoop] at heq
      cases hA : s.active with
      | some p =>
          obtain ⟨m₀, st₀⟩ := p
          rw [hA] at heq
          simp only at heq
          by_cases hbreak : now - st₀ < durMs m₀
          · rw [if_pos hbreak] at heq
            obtain ⟨hs', htr'⟩ := Prod.mk.injEq .. ▸ heq
            subst hs' htr'
            refine ⟨0, by simp, by simp, rfl, hh, rfl, rfl, Nat.le_refl _,
              cursorLE_refl _, ?_, ?_, ?_⟩
            · intro m st h
              rw [hA] at h
              cases h
              rcases hok m₀ st₀ hA with h1 | h1
              · exact h1
              · omega
            · exact hlink
            · exact hidle
          · rw [if_neg hbreak] at heq
            have hend : st₀ + durMs m₀ ≤ now := by omega
            set s1 : QueueState M := { s with active := none, virtualCursor := some (st₀ + durMs m₀) } with hs1def
            have hs1st : s1.storage = s.storage := by rw [hs1def]
            have hs1hd : s1.head = s.head := by rw [hs1def]
            have hs1cnt : s1.count = s.count := by rw [hs1def]
            have hs1cfg : s1.config = s.config := by rw [hs1def]
            have hs1rx : s1.lastRx = s.lastRx := by rw [hs1def]
            have hs1act : s1.active = none := by rw [hs1def]
            have hs1vc : s1.virtualCursor = some (st₀ + durMs m₀) := by rw [hs1def]
            have hring1' : ringList s1 = ringList s :=
              ringList_eq_of _ _ hs1st hs1hd hs1cnt
            have hcurS : s.virtualCursor = some (st₀ + durMs m₀) :=
              hlink m₀ st₀ hA
            rcases hPN : PromoteNext now s1 with ⟨s2, act2⟩
            rw [hPN] at heq
            obtain ⟨k1, hring1, htr1, hst1, hhd1, hcfg1, hrx1, hcnt1, hcur1,
                hnone1, hsome1⟩ :=
              promoteNext_spec now s1 s2 act2 hPN (by rw [hs1hd, hs1st]; exact hh)
                (by rw [hs1cfg]; exact hlag)
                (by
                  intro c hc
                  rw [hs1vc] at hc
                  cases hc
                  exact hend)
                hs1act
            cases hA2 : act2 with
            | none =>
                rw [hA2] at heq
                simp only at heq
                obtain ⟨hs', htr'⟩ := Prod.mk.injEq .. ▸ heq
                subst hs' htr'
                obtain ⟨hact2, c', hc', hle'⟩ := hnone1 hA2
                refine ⟨k1, by rw [hring1, hring1'], by simp, ?_, ?_, ?_, ?_, ?_,
                  ?_, ?_, ?_, ?_⟩
                · rw [hst1, hs1st]
                · rw [← hs1st]; exact hhd1
                · rw [hcfg1, hs1cfg]
                · rw [hrx1, hs1rx]
                · rw [← hs1cnt]; exact hcnt1
                · rw [hcurS, ← hs1vc]
                  exact hcur1
                · intro m st h
                  rw [hact2] at h
                  cases h
                · intro m st h
                  rw [hact2] at h
                  cases h
                · intro _ c hc
                  rw [hc'] at hc
                  cases hc
                  exact hle'
            | some m =>
                rw [hA2] at heq
                simp only at heq
                obtain ⟨st, hact2, hstle, hvc2, hcnt2⟩ := hsome1 m hA2
                rcases hR : updateLoop now fuel s2 with ⟨s3, tr3⟩
                rw [hR] at heq
                simp only at heq
                obtain ⟨hs', htr'⟩ := Prod.mk.injEq .. ▸ heq
                subst hs' htr'
                have hcnt2' : s2.count < s.count := by
                  rw [← hs1cnt]; exact hcnt2
                obtain ⟨k2, hring2, htr2, hst2, hhd2, hcfg2, hrx2, hcnt3,
                    hcur2, hdur3, hlink3, hidle3⟩ :=
                  ih s2 s3 tr3 hR
                    (by omega)
                    (by rw [hst1, hs1st]; rw [hs1st] at hhd1; exact hhd1)
                    (by rw [hcfg1, hs1cfg]; exact hlag)
                    (by
                      intro m' st' h'
                      rw [hact2] at h'
                      cases h'
                      exact Or.inr hstle)
                    (by
                      intro m' st' h'
                      rw [hact2] at h'
                      cases h'
                      exact hvc2)
                    (by
                      intro h'
                      rw [hact2] at h'
                      cases h')
                refine ⟨k1 + k2, ?_, ?_, ?_, ?_, ?_, ?_, ?_, ?_, hdur3,
                  hlink3, hidle3⟩
                · rw [hring2, hring1, hring1', List.drop_drop]
                · have h1 : List.Sublist [m] ((ringList s).take k1) := by
                    rw [hA2] at htr1
                    rw [← hring1']
                    exact htr1
                  have h2 : List.Sublist tr3 (((ringList s).drop k1).take k2) := by
                    rw [← hring1', ← hring1]
                    exact htr2
                  have h3 := List.Sublist.append h1 h2
                  rw [← List.take_add] at h3
                  exact h3
                · rw [hst2, hst1, hs1st]
                · rw [hst1, hs1st] at hhd2
                  exact hhd2
                · rw [hcfg2, hcfg1, hs1cfg]
                · rw [hrx2, hrx1, hs1rx]
                · omega
                · rw [hcurS, ← hs1vc]
                  exact cursorLE_trans hcur1 hcur2
      | none =>
          rw [hA] at heq
          simp only at heq
          rcases hPN : PromoteNext now s with ⟨s2, act2⟩
          rw [hPN] at heq
          obtain ⟨k1, hring1, htr1, hst1, hhd1, hcfg1, hrx1, hcnt1, hcur1,
              hnone1, hsome1⟩ :=
            promoteNext_spec now s s2 act2 hPN hh hlag (hidle hA) hA
          cases hA2 : act2 with
          | none =>
              rw [hA2] at heq
              simp only at heq
              obtain ⟨hs', htr'⟩ := Prod.mk.injEq .. ▸ heq
              subst hs' htr'
              obtain ⟨hact2, c', hc', hle'⟩ := hnone1 hA2
              refine ⟨k1, hring1, by simp, hst1, hhd1, hcfg1, hrx1, hcnt1,
                hcur1, ?_, ?_, ?_⟩
              · intro m st h
                rw [hact2] at h
                cases h
              · intro m st h
                rw [hact2] at h
                cases h
              · intro _ c hc
                rw [hc'] at hc
                cases hc
                exact hle'
          | some m =>
              rw [hA2] at heq
              simp only at heq
              obtain ⟨st, hact2, hstle, hvc2, hcnt2⟩ := hsome1 m hA2
              rcases hR : updateLoop now fuel s2 with ⟨s3, tr3⟩
              rw [hR] at heq
              simp only at heq
              obtain ⟨hs', htr'⟩ := Prod.mk.injEq .. ▸ heq
              subst hs' htr'
              obtain ⟨k2, hring2, htr2, hst2, hhd2, hcfg2, hrx2, hcnt3,
                  hcur2, hdur3, hlink3, hidle3⟩ :=
                ih s2 s3 tr3 hR
                  (by omega)
                  (by rw [hst1]; exact hhd1)
                  (by rw [hcfg1]; exact hlag)
                  (by
                    intro m' st' h'
                    rw [hact2] at h'
                    cases h'
                    exact Or.inr hstle)
                  (by
                    intro m' st' h'
                    rw [hact2] at h'
                    cases h'
                    exact hvc2)
                  (by
                    intro h'
                    rw [hact2] at h'
                    cases h')
              refine ⟨k1 + k2, ?_, ?_, ?_, ?_, ?_, ?_, ?_,
                cursorLE_trans hcur1 hcur2, hdur3, hlink3, hidle3⟩
              · rw [hring2, hring1, List.drop_drop]
              · have h1 : List.Sublist [m] ((ringList s).take k1) := by
                  rw [hA2] at htr1
                  exact htr1
                have h2 : List.Sublist tr3 (((ringList s).drop k1).take k2) := by
                  rw [← hring1]
                  exact htr2
                have h3 := List.Sublist.append h1 h2
                rw [← List.take_add] at h3
                exact h3
              · rw [hst2, hst1]
              · rw [hst1] at hhd2
                exact hhd2
              · rw [hcfg2, hcfg1]
              · rw [hrx2, hrx1]
              · omega

/-- `Update` at a connected instant, through the drain loop (fuel
`count + 1` is what `Update` passes and is sufficient). -/
theorem updateT_connected_spec (now : Int) (s s' : QueueState M) (tr : List M)
    (heq : UpdateT now s = (s', tr))
    (hconn : IsConnectedUnlocked now s = true)
    (hh : s.head < s.storage.length)
    (hlag : 0 < s.config.maxCommandLag)
    (hok : ∀ m st, s.active = some (m, st) → 0 < durMs m ∨ st ≤ now)
    (hlink : ∀ m st, s.active = some (m, st) → s.virtualCursor = some (st + durMs m))
    (hidle : s.active = none → ∀ c, s.virtualCursor = some c → c ≤ now) :
    ∃ k,
      ringList s' = (ringList s).drop k ∧
      List.Sublist tr ((ringList s).take k) ∧
      s'.storage = s.storage ∧ s'.head < s.storage.length ∧
      s'.config = s.config ∧ s'.lastRx = s.lastRx ∧ s'.count ≤ s.count ∧
      cursorLE s.virtualCursor s'.virtualCursor ∧
      (∀ m st, s'.active = some (m, st) → 0 < durMs m) ∧
      (∀ m st, s'.active = some (m, st) → s'.virtualCursor = some (st + durMs m)) ∧
      (s'.active = none → ∀ c, s'.virtualCursor = some c → c ≤ now) := by
  unfold UpdateT at heq
  rw [if_pos hconn] at heq
  exact updateLoop_spec now (s.count + 1) s s' tr heq (Nat.le_refl _) hh hlag
    hok hlink hidle

/-- A sequence of `Update` calls (the trace collects the activated
messages of each call in order). -/
def runUpdates (ts : List Int) (s : QueueState M) : QueueState M × List M :=
  match ts with
  | [] => (s, [])
  | t :: rest =>
    let r := UpdateT t s
    let r2 := runUpdates rest r.1
    (r2.1, r.2 ++ r2.2)

/-- C4 (amended): under any sequence of `Update(now_i)` with non-decreasing
`now_i` on a queue that stays connected, the virtual cursor is
non-decreasing and the sequence of messages that become active is an
order-preserving subsequence (`List.Sublist`) of the queued messages in
ring (push) order — a prefix only until the first lag-skip, since
`PromoteNext` can drop stale messages without activating them. -/
theorem runUpdates_fifo_subsequence (s : QueueState M) (ts : List Int) (t0 : Int)
    (hh : s.head < s.storage.length)
    (hlag : 0 < s.config.maxCommandLag)
    (hok : ∀ m st, s.active = some (m, st) → 0 < durMs m ∨ st ≤ t0)
    (hlink : ∀ m st, s.active = some (m, st) → s.virtualCursor = some (st + durMs m))
    (hidle : s.active = none → ∀ c, s.virtualCursor = some c → c ≤ t0)
    (hchain : List.Chain' (· ≤ ·) (t0 :: ts))
    (hconn : ∀ t ∈ ts, IsConnectedUnlocked t s = true) :
    cursorLE s.virtualCursor (runUpdates ts s).1.virtualCursor ∧
    List.Sublist (runUpdates ts s).2 (ringList s) := by
  induction ts generalizing s t0 with
  | nil => exact ⟨cursorLE_refl _, List.nil_sublist _⟩
  | cons t rest ih =>
      rcases hU : UpdateT t s with ⟨s1, tr1⟩
      have hrun : runUpdates (t :: rest) s =
          ((runUpdates rest s1).1, tr1 ++ (runUpdates rest s1).2) := by
        simp only [runUpdates, hU]
      have ht0t : t0 ≤ t := by
        have := hchain.rel_head
        simpa using this
      obtain ⟨k, hring, htr, hst, hhd, hcfg, hrx, hcnt, hcur, hdur1, hlink1,
          hidle1⟩ :=
        updateT_connected_spec t s s1 tr1 hU (hconn t (by simp)) hh hlag
          (fun m st h => (hok m st h).imp id (fun hle => le_trans hle ht0t))
          hlink
          (fun ha c hc => le_trans (hidle ha c hc) ht0t)
      have hconn1 : ∀ t' ∈ rest, IsConnectedUnlocked t' s1 = true := by
        intro t' ht'
        have : IsConnectedUnlocked t' s1 = IsConnectedUnlocked t' s := by
          unfold IsConnectedUnlocked
          rw [hrx, hcfg]
        rw [this]
        exact hconn t' (by simp [ht'])
      obtain ⟨ihcur, ihtr⟩ := ih s1 t
        (by rw [hst]; exact hhd)
        (by rw [hcfg]; exact hlag)
        (fun m st h => Or.inl (hdur1 m st h))
        hlink1
        hidle1
        (hchain.tail)
        hconn1
      constructor
      · rw [hrun]
        exact cursorLE_trans hcur ihcur
      · rw [hrun]
        have h2 : List.Sublist (runUpdates rest s1).2 ((ringList s).drop k) := by
          rw [← hring]
          exact ihtr
        have h3 := List.Sublist.append htr h2
        rw [List.take_append_drop] at h3
        exact h3

/-- A fresh connected queue (generous timeout, 100 ms lag bound) holding
three pushed commands of durations 100, 10 and 1000 ms, in that order. -/
def fifoQueue : QueueState TMsg :=
  NotifyReceived 1000 (Push ⟨3, 1000⟩ (Push ⟨2, 10⟩ (Push ⟨1, 100⟩
    (mkQueue ⟨10, 1000000, 100⟩)).2).2).2

/-- C4, counterexample to the claim as stated: running `Update` at
`t = 1000` and `t = 2000` (non-decreasing, connected throughout) on
`fifoQueue` activates message 1, lag-skips message 2, and activates
message 3 — the activated sequence `[1, 3]` is not a prefix of the push
order `[1, 2, 3]`. -/
theorem runUpdates_activations_not_prefix :
    ringList fifoQueue = [⟨1, 100⟩, ⟨2, 10⟩, ⟨3, 1000⟩] ∧
    List.Chain' (· ≤ ·) [(1000 : Int), 2000] ∧
    (∀ t ∈ [(1000 : Int), 2000], IsConnectedUnlocked t fifoQueue = true) ∧
    (runUpdates [1000, 2000] fifoQueue).2 = [⟨1, 100⟩, ⟨3, 1000⟩] ∧
    List.isPrefixOf ((runUpdates [1000, 2000] fifoQueue).2)
      (ringList fifoQueue) = false := by
  refine ⟨by decide, ?_, by decide, by decide, by decide⟩
  exact List.chain'_pair.mpr (by norm_num)

/-- Witness for the amended C4 on `fifoQueue` and the run `[1000, 2000]`:
the cursor does not decrease and the activations form a sublist of the
push order. -/
theorem runUpdates_fifo_subsequence_witness :
    cursorLE fifoQueue.virtualCursor
      (runUpdates [1000, 2000] fifoQueue).1.virtualCursor ∧
    List.Sublist (runUpdates [1000, 2000] fifoQueue).2 (ringList fifoQueue) := by
  refine runUpdates_fifo_subsequence fifoQueue [1000, 2000] 1000
    (by decide) (by decide) ?_ ?_ ?_
    (List.chain'_cons.mpr ⟨by norm_num, List.chain'_pair.mpr (by norm_num)⟩)
    (by decide)
  · intro m st h
    have hnone : fifoQueue.active = none := by decide
    rw [hnone] at h
    cases h
  · intro m st h
    have hnone : fifoQueue.active = none := by decide
    rw [hnone] at h
    cases h
  · intro _ c hc
    have hnone : fifoQueue.virtualCursor = none := by decide
    rw [hnone] at hc
    cases hc

/-! ## Queue invariants (C9) -/

/-- "Any message held in the active slot has strictly positive duration",
as an executable predicate (the "at most one active slot" invariant is
structural: `active` is an `Option`). -/
def ActiveDurationPositive (s : QueueState M) : Bool :=
  s.active.all fun p => decide (0 < durMs p.1)

/-- The queue invariants of the spec, together with the structural facts
the constructor establishes, indexed by a time watermark `t` (no update has
been observed after `t`): the queued count is bounded by the configured
capacity and the allocated storage, the head index is in range, the lag
bound is positive (clamped at construction), the active message has
positive duration, the cursor sits at the active message's projected end,
and an idle cursor is at or before `t`. -/
def QueueInvariant (s : QueueState M) (t : Int) : Prop :=
  s.count ≤ s.config.capacity ∧
  s.count ≤ s.storage.length ∧
  s.head < s.storage.length ∧
  0 < s.config.maxCommandLag ∧
  (∀ m st, s.active = some (m, st) → 0 < durMs m) ∧
  (∀ m st, s.active = some (m, st) → s.virtualCursor = some (st + durMs m)) ∧
  (s.active = none → ∀ c, s.virtualCursor = some c → c ≤ t)

theorem clampLag_capacity (c : MessageQueueConfig) :
    (clampLag c).capacity = c.capacity := by
  unfold clampLag
  split <;> rfl

theorem clampConfig_capacity_pos (c : MessageQueueConfig) :
    0 < (ClampConfig c).capacity := by
  unfold ClampConfig
  rw [clampLag_capacity]
  unfold clampCapacity
  split
  · show (0 : Nat) < 200
    decide
  · omega

theorem clampConfig_lag_pos (c : MessageQueueConfig) :
    0 < (ClampConfig c).maxCommandLag := by
  unfold ClampConfig clampLag
  split
  · show (0 : Int) < 1
    decide
  · omega

theorem resizeList_length (l : List M) (n : Nat) : (resizeList l n).length = n := by
  unfold resizeList
  simp only [List.length_append, List.length_take, List.length_replicate]
  omega

/-- C9 (amended): `Push`, `Clear`, `SetConfig` and a transaction's
`Push`/`Clear` (identical state effects) preserve the queue invariants
unconditionally, and `Update now` preserves them provided `now` is not
earlier than the watermark — guaranteed when update timestamps are
non-decreasing; under a backwards time step `Update` can briefly leave a
zero-duration message in the active slot (see the counterexample). -/
theorem queue_operations_preserve_invariants (s : QueueState M) (t : Int)
    (h : QueueInvariant s t) :
    (∀ m, QueueInvariant (Push m s).2 t) ∧
    QueueInvariant (ClearUnlocked s) t ∧
    (∀ cfg, QueueInvariant (SetConfig cfg s) t) ∧
    (∀ now, t ≤ now → QueueInvariant (Update now s) now) ∧
    (∀ t', t ≤ t' → QueueInvariant s t') := by
  obtain ⟨hcap, hlen, hhd, hlag, hdur, hlink, hidle⟩ := h
  have hlenpos : 0 < s.storage.length := Nat.lt_of_le_of_lt (Nat.zero_le _) hhd
  refine ⟨?_, ?_, ?_, ?_, ?_⟩
  · -- Push
    intro m
    unfold Push PushUnlocked
    by_cases hfull : EffectiveDepth s ≤ s.count
    · rw [if_pos hfull]
      exact ⟨hcap, hlen, hhd, hlag, hdur, hlink, hidle⟩
    · rw [if_neg hfull]
      unfold EffectiveDepth Capacity at hfull
      refine ⟨by simp; omega, ?_, ?_, hlag, hdur, hlink, hidle⟩
      · simp only [List.length_set]
        omega
      · simp only [List.length_set]
        exact hhd
  · -- Clear
    refine ⟨Nat.zero_le _, Nat.zero_le _, hlenpos, hlag, ?_, ?_, ?_⟩
    · intro m st h
      simp [ClearUnlocked] at h
    · intro m st h
      simp [ClearUnlocked] at h
    · intro _ c hc
      simp [ClearUnlocked] at hc
  · -- SetConfig
    intro cfg
    unfold SetConfig
    by_cases hres : s.storage.length ≠ (ClampConfig cfg).capacity
    · rw [if_pos hres]
      refine ⟨Nat.zero_le _, Nat.zero_le _, ?_, clampConfig_lag_pos cfg,
        ?_, ?_, ?_⟩
      · simp only [resizeList_length]
        exact clampConfig_capacity_pos cfg
      · intro m st h
        simp [ClearUnlocked] at h
      · intro m st h
        simp [ClearUnlocked] at h
      · intro _ c hc
        simp [ClearUnlocked] at hc
    · rw [if_neg hres]
      push_neg at hres
      exact ⟨by simp only; omega, hlen, hhd, clampConfig_lag_pos cfg, hdur,
        hlink, hidle⟩
  · -- Update
    intro now hnow
    by_cases hconn : IsConnectedUnlocked now s = true
    · rcases hU : UpdateT now s with ⟨s1, tr1⟩
      have hupd : Update now s = s1 := by
        unfold Update
        rw [hU]
      obtain ⟨k, _, _, hst, hhd1, hcfg1, _, hcnt1, _, hdur1, hlink1, hidle1⟩ :=
        updateT_connected_spec now s s1 tr1 hU hconn hhd hlag
          (fun m st hm => Or.inl (hdur m st hm))
          hlink
          (fun ha c hc => le_trans (hidle ha c hc) hnow)
      rw [hupd]
      refine ⟨?_, ?_, ?_, ?_, hdur1, hlink1, hidle1⟩
      · rw [hcfg1]; omega
      · rw [hst]; omega
      · rw [hst]; exact hhd1
      · rw [hcfg1]; exact hlag
    · have hupd : Update now s = ClearUnlocked s := by
        unfold Update UpdateT
        rw [if_neg hconn]
      rw [hupd]
      refine ⟨Nat.zero_le _, Nat.zero_le _, hlenpos, hlag, ?_, ?_, ?_⟩
      · intro m st h
        simp [ClearUnlocked] at h
      · intro m st h
        simp [ClearUnlocked] at h
      · intro _ c hc
        simp [ClearUnlocked] at hc
  · -- watermark monotone
    intro t' ht'
    exact ⟨hcap, hlen, hhd, hlag, hdur, hlink,
      fun ha c hc => le_trans (hidle ha c hc) ht'⟩

/-- A connected queue whose idle cursor (2000) is ahead of the upcoming
update time, holding one freshly pushed zero-duration command. -/
def zeroDurQueue : QueueState TMsg :=
  (Push ⟨7, 0⟩
    { config := ⟨10, 200, 100⟩
      metrics := ⟨0, 0, 0⟩
      storage := List.replicate 10 default
      head := 0
      tail := 0
      count := 0
      active := none
      virtualCursor := some 2000
      lastRx := some 1100 }).2

/-- C9, counterexample to the claim as stated: `zeroDurQueue` satisfies the
listed state invariants (count within capacity, no active message), it is
connected at `now = 1000`, yet `Update 1000` — a time step backwards from
the cursor — activates the zero-duration message and returns with it still
in the active slot, violating "active's duration > 0". -/
theorem update_zero_duration_violation :
    zeroDurQueue.count ≤ zeroDurQueue.config.capacity ∧
    ActiveDurationPositive zeroDurQueue = true ∧
    IsConnectedUnlocked 1000 zeroDurQueue = true ∧
    (Update 1000 zeroDurQueue).active = some (⟨7, 0⟩, 2000) ∧
    ActiveDurationPositive (Update 1000 zeroDurQueue) = false := by
  decide

/-- Witness for the amended C9 at `fifoQueue` with watermark 1000: all
four operations preserve the invariants (an `Update` at 1500 shown). -/
theorem queue_operations_preserve_invariants_witness :
    (∀ m, QueueInvariant (Push m fifoQueue).2 1000) ∧
    QueueInvariant (ClearUnlocked fifoQueue) 1000 ∧
    (∀ cfg, QueueInvariant (SetConfig cfg fifoQueue) 1000) ∧
    (∀ now, (1000 : Int) ≤ now → QueueInvariant (Update now fifoQueue) now) ∧
    (∀ t', (1000 : Int) ≤ t' → QueueInvariant fifoQueue t') := by
  refine queue_operations_preserve_invariants fifoQueue 1000
    ⟨by decide, by decide, by decide, by decide, ?_, ?_, ?_⟩
  · intro m st h
    have hnone : fifoQueue.active = none := by decide
    rw [hnone] at h
    cases h
  · intro m st h
    have hnone : fifoQueue.active = none := by decide
    rw [hnone] at h
    cases h
  · intro _ c hc
    have hnone : fifoQueue.virtualCursor = none := by decide
    rw [hnone] at hc
    cases hc

end QueueLemmas

/-! ## The stream parser (`stream_parser.h` / `stream_parser.cpp`)

Both callbacks are modelled as installed: invoking one appends an event to
the state's trace. -/

/-- `kHeaderMajorIndex` of `packet.h`. -/
def kHeaderMajorIndex : Nat := 0

/-- `kHeaderMinorIndex` of `packet.h`. -/
def kHeaderMinorIndex : Nat := 1

/-- Modelled from the spec: `kHeaderMsgTypeIndex = 3` (generated header;
the spec's header layout table). -/
def kHeaderMsgTypeIndex : Nat := 3

/-- Modelled from the spec: `kHeaderMsgCountIndex = 5` (generated header;
the spec's header layout table). -/
def kHeaderMsgCountIndex : Nat := 5

/-- `StreamParser::kMaxParseIterationsPerPush`. -/
def kMaxParseIterationsPerPush : Nat := 1024

/-- An invoked parser callback: `m_onPacket(view)` or `m_onError(info)`
with `ErrorInfo { code, offset, consecutiveErrors }`. -/
inductive ParserEvent where
  | packet (view : PacketView)
  | error (code : PacketError) (offset : Nat) (consecutiveErrors : Nat)
deriving DecidableEq

/-- The `StreamParser` state: the ring storage `m_buffer` (fixed length),
`m_head`, `m_size`, the logical `m_streamOffset`, `m_consecutiveErrors`,
and the trace of emitted callbacks. -/
structure ParserState where
  buffer : List Nat
  head : Nat
  size : Nat
  streamOffset : Nat
  consecutiveErrors : Nat
  events : List ParserEvent
deriving DecidableEq

/-- `StreamParser::EmitError`: bump the consecutive-error counter and
invoke the error callback. -/
def EmitError (code : PacketError) (offset : Nat) (s : ParserState) : ParserState :=
  { s with consecutiveErrors := s.consecutiveErrors + 1,
           events := s.events ++
             [.error code offset (s.consecutiveErrors + 1)] }

/-- `StreamParser::EmitPacket`. -/
def EmitPacket (v : PacketView) (s : ParserState) : ParserState :=
  { s with events := s.events ++ [.packet v] }

/-- `StreamParser::CopyOut`: read `length` bytes starting at logical
offset `offset` from the ring head (the source's two wrap-splitting
`memcpy`s are equivalent to per-index modular reads). -/
def CopyOut (s : ParserState) (offset length : Nat) : List Nat :=
  (List.range length).map
    (fun i => s.buffer.getD ((s.head + offset + i) % s.buffer.length) 0)

/-- `StreamParser::Discard`: drop up to `count` bytes from the ring front,
advancing the stream offset. -/
def Discard (count : Nat) (s : ParserState) : ParserState :=
  if count = 0 ∨ s.size = 0 then s
  else
    let c := min count s.size
    { s with head := (s.head + c) % s.buffer.length,
             size := s.size - c,
             streamOffset := s.streamOffset + c }

/-- The per-index modular writes of `StreamParser::WriteToBuffer`
(equivalent to its two wrap-splitting `memcpy`s). -/
def writeBytes : List Nat → Nat → List Nat → List Nat
  | [], _, buffer => buffer
  | b :: rest, idx, buffer => writeBytes rest (idx + 1) (buffer.set (idx % buffer.length) b)

/-- `StreamParser::WriteToBuffer`: append at the ring tail (caller
guarantees space). -/
def WriteToBuffer (data : List Nat) (s : ParserState) : ParserState :=
  { s with buffer := writeBytes data (s.head + s.size) s.buffer,
           size := s.size + data.length }

/-- The scan loop of `StreamParser::FindNextHeaderCandidate`, from
`offset`, with fuel (the window size bounds the iterations). -/
def findNextFrom (s : ParserState) : Nat → Nat → Nat
  | 0, _ => 1
  | fuel + 1, offset =>
    if s.size ≤ offset then 1
    else if s.buffer.getD ((s.head + offset) % s.buffer.length) 0 ≠ kProtocolMajorV3 then
      findNextFrom s fuel (offset + 1)
    else if s.size ≤ offset + 1 then offset
    else if s.buffer.getD ((s.head + offset + 1) % s.buffer.length) 0 = kProtocolMinorV3 then
      offset
    else findNextFrom s fuel (offset + 1)

/-- `StreamParser::FindNextHeaderCandidate` (`stream_parser.cpp` lines
252-273). -/
def FindNextHeaderCandidate (s : ParserState) : Nat :=
  if s.size ≤ 1 then (if s.size = 0 then 0 else 1)
  else findNextFrom s s.size 1

/-- `StreamParser::ParseBuffer` (`stream_parser.cpp` lines 181-242), with
the by-reference iteration budget returned alongside the state. -/
def ParseBuffer (lookup : Nat → Nat) : Nat → ParserState → ParserState × Nat
  | 0, s => (s, 0)
  | budget + 1, s =>
    if s.size < kHeaderSizeV3 then (s, budget + 1)
    else
      let hdr := CopyOut s 0 kHeaderSizeV3
      if hdr.getD kHeaderMajorIndex 0 ≠ kProtocolMajorV3 ∨
          hdr.getD kHeaderMinorIndex 0 ≠ kProtocolMinorV3 then
        let s1 := EmitError .UnsupportedVersion s.streamOffset s
        let skip := FindNextHeaderCandidate s1
        ParseBuffer lookup budget (Discard (if 0 < skip then skip else 1) s1)
      else
        let msgTypeId := loadU16 (hdr.getD kHeaderMsgTypeIndex 0)
          (hdr.getD (kHeaderMsgTypeIndex + 1) 0)
        let messageCount := loadU16 (hdr.getD kHeaderMsgCountIndex 0)
          (hdr.getD (kHeaderMsgCountIndex + 1) 0)
        let wireSize := lookup msgTypeId
        if wireSize = 0 then
          ParseBuffer lookup budget
            (Discard 1 (EmitError .UnknownMessageType s.streamOffset s))
        else if kMaxMessagesPerPacket < messageCount then
          ParseBuffer lookup budget
            (Discard 1 (EmitError .TooManyMessages s.streamOffset s))
        else
          let expected := kHeaderSizeV3 + messageCount * wireSize + kChecksumSize
          let available := min expected s.size
          let r := DecodePacketViewWithSize (CopyOut s 0 available) wireSize
          if r.error = .Truncated then (s, budget)
          else
            match r.view with
            | none =>
              let s1 := EmitError r.error s.streamOffset s
              if r.error = .ChecksumMismatch ∨ r.error = .InvalidFloat then
                ParseBuffer lookup budget (Discard 1 s1)
              else
                ParseBuffer lookup budget
                  (Discard (if 0 < r.bytesConsumed then r.bytesConsumed else 1) s1)
            | some v =>
              ParseBuffer lookup budget
                (Discard r.bytesConsumed
                  { EmitPacket v s with consecutiveErrors := 0 })

/-- The `while (remaining > 0)` loop of `StreamParser::Push`, with the
unconsumed input as a list; each pass writes at least one byte, so
`remaining.length + 1` fuel suffices.  The trailing `if (budget > 0)
ParseBuffer` of the source runs when the loop exits with nothing left. -/
def pushLoop (lookup : Nat → Nat) : Nat → List Nat → Nat → ParserState → ParserState
  | 0, _, _, s => s
  | fuel + 1, remaining, budget, s =>
    if remaining.length = 0 then
      if 0 < budget then (ParseBuffer lookup budget s).1 else s
    else
      let p1 := if s.size = s.buffer.length then ParseBuffer lookup budget s
                else (s, budget)
      if p1.1.size = p1.1.buffer.length then
        let sE := EmitError .TooManyMessages p1.1.streamOffset p1.1
        { sE with streamOffset := sE.streamOffset + sE.size, head := 0, size := 0 }
      else if p1.2 = 0 then p1.1
      else
        let writable := min remaining.length (p1.1.buffer.length - p1.1.size)
        if writable = 0 then
          if 0 < p1.2 then (ParseBuffer lookup p1.2 p1.1).1 else p1.1
        else
          let s2 := WriteToBuffer (remaining.take writable) p1.1
          let p2 := ParseBuffer lookup p1.2 s2
          if p2.2 = 0 ∧ 0 < (remaining.drop writable).length then p2.1
          else pushLoop lookup fuel (remaining.drop writable) p2.2 p2.1

/-- `StreamParser::Push` (`stream_parser.cpp` lines 46-90). -/
def Parser.Push (lookup : Nat → Nat) (data : List Nat) (s : ParserState) : ParserState :=
  if data.length = 0 then s
  else pushLoop lookup (data.length + 1) data kMaxParseIterationsPerPush s

/-- The wire-size lookup of the demonstration schema (`DriveCmd` only),
as installed through `SetWireSizeLookup`: 0 marks an unknown type. -/
def demoLookup : Nat → Nat :=
  fun t => if t = DriveCmd.kTypeId then DriveCmd.kWireSize else 0

/-! ## Poison-packet recovery (C6) -/

/-- C6: when the decode of a candidate frame fails with `ChecksumMismatch`
or `InvalidFloat`, the parse iteration emits that error and discards
exactly one byte — not the computed frame length — before continuing, so a
real packet starting at any later offset of the buffered bytes remains
reachable. -/
theorem parse_poison_discards_one (lookup : Nat → Nat) (b : Nat)
    (s : ParserState) (hdr : List Nat) (w cnt : Nat) (r : DecodeViewResult)
    (hhdr : CopyOut s 0 kHeaderSizeV3 = hdr)
    (hsz : kHeaderSizeV3 ≤ s.size)
    (hmaj : hdr.getD kHeaderMajorIndex 0 = kProtocolMajorV3)
    (hmin : hdr.getD kHeaderMinorIndex 0 = kProtocolMinorV3)
    (hw : lookup (loadU16 (hdr.getD kHeaderMsgTypeIndex 0)
      (hdr.getD (kHeaderMsgTypeIndex + 1) 0)) = w)
    (hw0 : w ≠ 0)
    (hcnt : loadU16 (hdr.getD kHeaderMsgCountIndex 0)
      (hdr.getD (kHeaderMsgCountIndex + 1) 0) = cnt)
    (hcntle : cnt ≤ kMaxMessagesPerPacket)
    (hr : DecodePacketViewWithSize
      (CopyOut s 0 (min (kHeaderSizeV3 + cnt * w + kChecksumSize) s.size)) w = r)
    (hview : r.view = none)
    (herr : r.error = .ChecksumMismatch ∨ r.error = .InvalidFloat) :
    ParseBuffer lookup (b + 1) s =
      ParseBuffer lookup b (Discard 1 (EmitError r.error s.streamOffset s)) ∧
    (EmitError r.error s.streamOffset s).events =
      s.events ++ [.error r.error s.streamOffset (s.consecutiveErrors + 1)] := by
  refine ⟨?_, rfl⟩
  rw [ParseBuffer]
  rw [if_neg (by omega)]
  simp only
  rw [hhdr, hcnt, hw]
  rw [if_neg (by push_neg; exact ⟨hmaj, hmin⟩)]
  rw [if_neg hw0, if_neg (by omega), hr]
  rw [if_neg (by rcases herr with h | h <;> rw [h] <;> simp)]
  rw [hview]
  simp only
  rw [if_pos herr]

/-- A parser holding scenario A's single-command frame with its CRC byte
corrupted (last byte 169 → 170). -/
def badCrcState : ParserState :=
  ⟨[3, 0, 1, 0, 1, 0, 1, 63, 0, 0, 0, 191, 128, 0, 0, 5, 220, 14, 6, 213, 170] ++
    List.replicate 11 0, 0, 21, 0, 0, []⟩

/-- Witness for C6 at `badCrcState`: the checksum mismatch is emitted and
exactly one byte is discarded (21-byte frame; the next iteration resumes
one byte in). -/
theorem parse_poison_discards_one_witness :
    ParseBuffer demoLookup 1024 badCrcState =
      ParseBuffer demoLookup 1023
        (Discard 1 (EmitError .ChecksumMismatch 0 badCrcState)) ∧
    (EmitError PacketError.ChecksumMismatch 0 badCrcState).events =
      [.error .ChecksumMismatch 0 1] := by
  have h := parse_poison_discards_one demoLookup 1023 badCrcState
    (CopyOut badCrcState 0 kHeaderSizeV3) 10 1
    ⟨none, .ChecksumMismatch, 21⟩ rfl (by decide) (by decide) (by decide)
    (by decide) (by decide) (by decide) (by decide) (by decide) rfl
    (Or.inl rfl)
  exact ⟨h.1, h.2⟩

/-! ## Version-mismatch resynchronisation (C7) -/

/-- A position in the current ring window at which the scan of
`FindNextHeaderCandidate` stops: the byte there equals the protocol major
and either it is the last byte of the window or the next byte equals the
protocol minor. -/
def headerCandidateAt (s : ParserState) (o : Nat) : Bool :=
  decide (s.buffer.getD ((s.head + o) % s.buffer.length) 0 = kProtocolMajorV3) &&
    (decide (s.size ≤ o + 1) ||
      decide (s.buffer.getD ((s.head + o + 1) % s.buffer.length) 0 = kProtocolMinorV3))

/-- The discard amount the version-mismatch path uses, in closed form: the
least offset `o ∈ [1, size)` satisfying `headerCandidateAt` — a full
`(major, minor)` pair, or a lone trailing major byte at the window's last
position — or 1 byte when no such offset exists. -/
def nextHeaderCandidateSpec (s : ParserState) : Nat :=
  match (List.range' 1 (s.size - 1)).find? (headerCandidateAt s) with
  | some o => o
  | none => 1

theorem findNextFrom_eq (s : ParserState) :
    ∀ (fuel offset : Nat), s.size ≤ offset + fuel →
      findNextFrom s fuel offset =
        (match (List.range' offset (s.size - offset)).find? (headerCandidateAt s) with
         | some o => o
         | none => 1) := by
  intro fuel
  induction fuel with
  | zero =>
      intro offset hle
      have h0 : s.size - offset = 0 := by omega
      rw [h0]
      rfl
  | succ fuel ih =>
      intro offset hle
      by_cases ho : s.size ≤ offset
      · have h0 : s.size - offset = 0 := by omega
        rw [findNextFrom, if_pos ho, h0]
        rfl
      · have hrange : List.range' offset (s.size - offset) =
            offset :: List.range' (offset + 1) (s.size - (offset + 1)) := by
          have hsub : s.size - offset = (s.size - (offset + 1)) + 1 := by omega
          rw [hsub]
          rfl
        rw [findNextFrom, if_neg ho, hrange]
        by_cases hca : headerCandidateAt s offset = true
        · rw [List.find?_cons_of_pos _ hca]
          have hca' := hca
          unfold headerCandidateAt at hca'
          simp only [Bool.and_eq_true, Bool.or_eq_true, decide_eq_true_eq] at hca'
          obtain ⟨hfirst, hsecond⟩ := hca'
          rw [if_neg (by push_neg; exact hfirst)]
          rcases hsecond with h2 | h2
          · rw [if_pos h2]
          · by_cases hlast : s.size ≤ offset + 1
            · rw [if_pos hlast]
            · rw [if_neg hlast, if_pos h2]
        · rw [List.find?_cons_of_neg _ hca]
          have hca' := hca
          unfold headerCandidateAt at hca'
          simp only [Bool.and_eq_true, Bool.or_eq_true, decide_eq_true_eq,
            not_and_or, not_or] at hca'
          by_cases hfirst : s.buffer.getD ((s.head + offset) % s.buffer.length) 0
              = kProtocolMajorV3
          · have h2 : ¬ s.size ≤ offset + 1 ∧
                ¬ s.buffer.getD ((s.head + offset + 1) % s.buffer.length) 0
                  = kProtocolMinorV3 := by
              rcases hca' with h | h
              · exact absurd hfirst h
              · exact h
            rw [if_neg (by push_neg; exact hfirst), if_neg h2.1, if_neg h2.2]
            exact ih (offset + 1) (by omega)
          · rw [if_pos hfirst]
            exact ih (offset + 1) (by omega)

theorem findNextFrom_emitError (c : PacketError) (o : Nat) (s : ParserState) :
    ∀ (fuel offset : Nat),
      findNextFrom (EmitError c o s) fuel offset = findNextFrom s fuel offset := by
  intro fuel
  induction fuel with
  | zero => intro offset; rfl
  | succ fuel ih =>
      intro offset
      rw [findNextFrom, findNextFrom]
      simp only [ih]
      rfl

theorem findNextHeaderCandidate_emitError (c : PacketError) (o : Nat)
    (s : ParserState) :
    FindNextHeaderCandidate (EmitError c o s) = FindNextHeaderCandidate s := by
  unfold FindNextHeaderCandidate
  rw [findNextFrom_emitError]
  rfl

theorem findNextHeaderCandidate_eq_spec (s : ParserState) (hsz : 1 < s.size) :
    FindNextHeaderCandidate s = nextHeaderCandidateSpec s := by
  unfold FindNextHeaderCandidate nextHeaderCandidateSpec
  rw [if_neg (by omega)]
  exact findNextFrom_eq s s.size 1 (by omega)

theorem nextHeaderCandidateSpec_pos (s : ParserState) :
    0 < nextHeaderCandidateSpec s := by
  unfold nextHeaderCandidateSpec
  cases hf : (List.range' 1 (s.size - 1)).find? (headerCandidateAt s) with
  | none => simp
  | some o =>
      simp only
      have hmem := List.find?_some hf
      have : o ∈ List.range' 1 (s.size - 1) := List.mem_of_find?_eq_some hf
      have := List.mem_range'.mp this
      omega

/-- C7 (amended): on a version mismatch the parse iteration emits
`UnsupportedVersion` and discards exactly `nextHeaderCandidateSpec s`
bytes — the offset of the next `(major, minor)` byte pair in the current
ring window, or the offset of the window's final byte when that byte
equals the major and no pair occurs before it, or exactly 1 byte if
neither exists.  (The claim as stated omits the lone-trailing-major case:
see the counterexample.) -/
theorem parse_version_mismatch_behavior (lookup : Nat → Nat) (b : Nat)
    (s : ParserState)
    (hsz : kHeaderSizeV3 ≤ s.size)
    (hver : (CopyOut s 0 kHeaderSizeV3).getD kHeaderMajorIndex 0 ≠ kProtocolMajorV3 ∨
      (CopyOut s 0 kHeaderSizeV3).getD kHeaderMinorIndex 0 ≠ kProtocolMinorV3) :
    ParseBuffer lookup (b + 1) s =
      ParseBuffer lookup b
        (Discard (nextHeaderCandidateSpec s)
          (EmitError .UnsupportedVersion s.streamOffset s)) ∧
    FindNextHeaderCandidate s = nextHeaderCandidateSpec s ∧
    (EmitError PacketError.UnsupportedVersion s.streamOffset s).events =
      s.events ++ [.error .UnsupportedVersion s.streamOffset (s.consecutiveErrors + 1)] := by
  have hspec : FindNextHeaderCandidate s = nextHeaderCandidateSpec s :=
    findNextHeaderCandidate_eq_spec s (by
      unfold kHeaderSizeV3 at hsz
      omega)
  refine ⟨?_, hspec, rfl⟩
  have hemit : FindNextHeaderCandidate
      (EmitError .UnsupportedVersion s.streamOffset s) = FindNextHeaderCandidate s :=
    findNextHeaderCandidate_emitError _ _ s
  rw [ParseBuffer]
  rw [if_neg (by omega)]
  simp only
  rw [if_pos hver]
  rw [hemit, hspec]
  rw [if_pos (nextHeaderCandidateSpec_pos s)]

/-- An 8-byte window starting with a wrong version whose final byte is the
protocol major, with no `(major, minor)` pair anywhere. -/
def badVersionWindow : ParserState :=
  ⟨[4, 0, 0, 0, 0, 0, 0, 3], 0, 8, 0, 0, []⟩

/-- C7, counterexample to the claim as stated: no byte pair equal to
`(major, minor) = (3, 0)` occurs in `badVersionWindow`, so the claim
prescribes a discard of exactly 1 byte; the parser instead discards 7
bytes — the offset of the lone trailing major byte — leaving 1 byte and a
stream offset of 7 after one iteration. -/
theorem version_skip_not_pair_counterexample :
    ((List.range' 1 6).all fun o =>
      !(decide (badVersionWindow.buffer.getD o 0 = kProtocolMajorV3) &&
        decide (badVersionWindow.buffer.getD (o + 1) 0 = kProtocolMinorV3))) = true ∧
    (ParseBuffer demoLookup 1 badVersionWindow).1.events =
      [.error .UnsupportedVersion 0 1] ∧
    (ParseBuffer demoLookup 1 badVersionWindow).1.streamOffset = 7 ∧
    (ParseBuffer demoLookup 1 badVersionWindow).1.size = 1 := by
  decide

/-- Witness for the amended C7 at `badVersionWindow`: the iteration goes
through `EmitError` and a discard of `nextHeaderCandidateSpec`, which here
is 7 (the trailing major byte). -/
theorem parse_version_mismatch_behavior_witness :
    (ParseBuffer demoLookup 1 badVersionWindow =
      ParseBuffer demoLookup 0
        (Discard (nextHeaderCandidateSpec badVersionWindow)
          (EmitError .UnsupportedVersion 0 badVersionWindow))) ∧
    nextHeaderCandidateSpec badVersionWindow = 7 := by
  have h := parse_version_mismatch_behavior demoLookup 0 badVersionWindow
    (by decide) (Or.inl (by decide))
  exact ⟨h.1, by decide⟩

/-! ## Ring overflow policy of `Push` (C8) -/

/-- C8: when `Push` finds the ring full and the parsing attempt frees no
space, it emits exactly one `TooManyMessages` error carrying the current
stream offset, drops the entire ring contents (head and size zeroed),
advances the stream offset past every dropped byte, and returns without
consuming any of the new input. -/
theorem push_overflow_drops_ring (lookup : Nat → Nat) (data : List Nat)
    (s s1 : ParserState) (b1 : Nat)
    (hdata : data ≠ [])
    (hfull : s.size = s.buffer.length)
    (hparse : ParseBuffer lookup kMaxParseIterationsPerPush s = (s1, b1))
    (hstillfull : s1.size = s1.buffer.length) :
    Parser.Push lookup data s =
      { s1 with
        consecutiveErrors := s1.consecutiveErrors + 1,
        events := s1.events ++
          [.error .TooManyMessages s1.streamOffset (s1.consecutiveErrors + 1)],
        streamOffset := s1.streamOffset + s1.size,
        head := 0, size := 0 } := by
  have hlen0 : ¬ data.length = 0 := by
    cases data with
    | nil => exact absurd rfl hdata
    | cons a l => simp
  unfold Parser.Push
  rw [if_neg hlen0]
  rw [pushLoop]
  rw [if_neg hlen0]
  rw [if_pos hfull, hparse]
  simp only
  rw [if_pos hstillfull]
  rfl

/-- A full 11-byte ring (the minimum buffer) holding a truncated
single-command frame: parsing it frees no space. -/
def fullRingState : ParserState :=
  ⟨[3, 0, 1, 0, 1, 0, 1, 63, 0, 0, 0], 0, 11, 5, 2, []⟩

/-- Witness for C8: pushing two further bytes into `fullRingState` (whose
parse attempt hits `Truncated` and frees nothing) emits one
`TooManyMessages` at stream offset 5 and drops all 11 buffered bytes. -/
theorem push_overflow_drops_ring_witness :
    Parser.Push demoLookup [9, 9] fullRingState =
      { fullRingState with
        consecutiveErrors := 3,
        events := [.error .TooManyMessages 5 3],
        streamOffset := 16,
        head := 0, size := 0 } := by
  have h := push_overflow_drops_ring demoLookup [9, 9] fullRingState
    fullRingState 1023 (by decide) (by decide) (by decide) (by decide)
  exact h.trans (by decide)

end BCNP
